import Mathlib

/-!
Verification of the concurrency/supervision core of the nordic medical
platform firmware: the bounded item queue (`safe_queue.c`), the bounded
circular byte buffer (`safe_buffer.c`) and the thread supervisor
(`thread_manager.c`), shallowly embedded as pure state-passing functions.

Modelling conventions:
* `size_t` / `int` values are `Nat` (all the arithmetic proved about stays
  within bounds, so no wraparound occurs); the `uint32_t` statistics counters
  are kept modulo `2^32` exactly where the C code increments them.
* `int64_t` timestamps (`k_uptime_get`) are `Int`.
* Pointers to caller data are abstracted to a `Nat` handle, `0` playing the
  role of `NULL`.
* Mutex / condition-variable calls guard critical sections that are atomic in
  this sequential model, so they have no residue.  A blocking operation whose
  guard is false can only be woken by a concurrent peer; in the
  single-threaded model no peer exists, hence the wait ends in the timeout
  branch of the C loop (`k_condvar_wait` returning nonzero), which is exactly
  the path the timeout claims are about.
-/

set_option maxHeartbeats 1000000

def U32 : Nat := 2 ^ 32

/-! ## safe_queue.c -/

/-- Return codes of `safe_queue.h` (`QUEUE_OK`, `QUEUE_ERROR_FULL`, ...). -/
inductive QueueRc where
  | ok
  | full
  | empty
  | timeout
  | invalid
deriving DecidableEq, Repr

/-- `SAFE_QUEUE_MAX_SIZE` from `safe_queue.h`. -/
def SAFE_QUEUE_MAX_SIZE : Nat := 32

/-- `queue_item_t`: stored reference (`data`), its size, enqueue timestamp and
sequence id. -/
structure queue_item_t where
  data : Nat
  size : Nat
  timestamp : Nat
  sequence_id : Nat
deriving DecidableEq, Repr

def zero_item : queue_item_t := ⟨0, 0, 0, 0⟩

/-- `safe_queue_t`: ring of items plus indices and statistics counters.  The
backing array `items[SAFE_QUEUE_MAX_SIZE]` is modelled as a total function. -/
structure safe_queue_t where
  items : Nat → queue_item_t
  head : Nat
  tail : Nat
  count : Nat
  max_size : Nat
  next_sequence_id : Nat
  total_enqueued : Nat
  total_dequeued : Nat
  overrun_count : Nat

/-- `safe_queue_init`: rejects `max_size == 0` and `max_size > 32`, otherwise
zeroes the structure and sets the fields as in the C code. -/
def safe_queue_init (max_size : Nat) : Option safe_queue_t :=
  if max_size = 0 ∨ max_size > SAFE_QUEUE_MAX_SIZE then
    none
  else
    some { items := fun _ => zero_item
           head := 0
           tail := 0
           count := 0
           max_size := max_size
           next_sequence_id := 1
           total_enqueued := 0
           total_dequeued := 0
           overrun_count := 0 }

/-- `safe_queue_enqueue_nb`.  `data = 0` plays the role of a `NULL` data
pointer; `now` is the value `k_uptime_get_32()` would return. -/
def safe_queue_enqueue_nb (q : safe_queue_t) (data : Nat) (size : Nat)
    (now : Nat) : QueueRc × safe_queue_t :=
  if data = 0 ∨ size = 0 then
    (.invalid, q)
  else if q.count ≥ q.max_size then
    (.full, { q with overrun_count := (q.overrun_count + 1) % U32 })
  else
    let item : queue_item_t :=
      { data := data, size := size, timestamp := now % U32
        sequence_id := q.next_sequence_id }
    (.ok,
      { q with
        items := fun j => if j = q.tail then item else q.items j
        tail := (q.tail + 1) % q.max_size
        count := q.count + 1
        next_sequence_id := (q.next_sequence_id + 1) % U32
        total_enqueued := (q.total_enqueued + 1) % U32 })

/-- `safe_queue_enqueue` (blocking).  With no concurrent consumer a full queue
never drains, so the `k_condvar_wait` loop exits through its timeout branch:
the call returns `QUEUE_ERROR_TIMEOUT` with the state untouched.  Otherwise it
behaves exactly like the success path of the non-blocking variant. -/
def safe_queue_enqueue (q : safe_queue_t) (data : Nat) (size : Nat)
    (now : Nat) : QueueRc × safe_queue_t :=
  if data = 0 ∨ size = 0 then
    (.invalid, q)
  else if q.count ≥ q.max_size then
    (.timeout, q)
  else
    let item : queue_item_t :=
      { data := data, size := size, timestamp := now % U32
        sequence_id := q.next_sequence_id }
    (.ok,
      { q with
        items := fun j => if j = q.tail then item else q.items j
        tail := (q.tail + 1) % q.max_size
        count := q.count + 1
        next_sequence_id := (q.next_sequence_id + 1) % U32
        total_enqueued := (q.total_enqueued + 1) % U32 })

/-- `safe_queue_dequeue_nb`: returns the removed item through `*item`. -/
def safe_queue_dequeue_nb (q : safe_queue_t) :
    QueueRc × safe_queue_t × Option queue_item_t :=
  if q.count = 0 then
    (.empty, q, none)
  else
    (.ok,
      { q with
        head := (q.head + 1) % q.max_size
        count := q.count - 1
        total_dequeued := (q.total_dequeued + 1) % U32 },
      some (q.items q.head))

/-- `safe_queue_dequeue` (blocking): an empty queue stays empty without a
concurrent producer, so the wait loop exits through its timeout branch. -/
def safe_queue_dequeue (q : safe_queue_t) :
    QueueRc × safe_queue_t × Option queue_item_t :=
  if q.count = 0 then
    (.timeout, q, none)
  else
    (.ok,
      { q with
        head := (q.head + 1) % q.max_size
        count := q.count - 1
        total_dequeued := (q.total_dequeued + 1) % U32 },
      some (q.items q.head))

/-- `safe_queue_size`. -/
def safe_queue_size (q : safe_queue_t) : Nat := q.count

/-- `safe_queue_is_empty`. -/
def safe_queue_is_empty (q : safe_queue_t) : Bool := safe_queue_size q = 0

/-- `safe_queue_is_full`. -/
def safe_queue_is_full (q : safe_queue_t) : Bool := q.count ≥ q.max_size

/-- `safe_queue_clear`: resets head/tail/count only. -/
def safe_queue_clear (q : safe_queue_t) : safe_queue_t :=
  { q with head := 0, tail := 0, count := 0 }

/-- `safe_queue_get_stats`: the out-parameters, in order. -/
def safe_queue_get_stats (q : safe_queue_t) : Nat × Nat × Nat :=
  (q.total_enqueued, q.total_dequeued, q.overrun_count)

/-! ### Queue abstraction: ring well-formedness and abstract contents -/

/-- The items currently held, oldest first: `count` slots starting at `head`. -/
def queue_contents (q : safe_queue_t) : List queue_item_t :=
  (List.range q.count).map (fun i => q.items ((q.head + i) % q.max_size))

/-- Ring well-formedness, established by `safe_queue_init` and preserved by
every operation. -/
structure QueueWF (q : safe_queue_t) : Prop where
  size_pos : 0 < q.max_size
  size_le : q.max_size ≤ SAFE_QUEUE_MAX_SIZE
  head_lt : q.head < q.max_size
  tail_lt : q.tail < q.max_size
  count_le : q.count ≤ q.max_size
  tail_eq : q.tail = (q.head + q.count) % q.max_size

/-! ### Queue: derived operation sequences and reachability -/

/-- The (data, size) pair a caller passed to `enqueue`; dequeue order is
compared on these. -/
def item_ds (it : queue_item_t) : Nat × Nat := (it.data, it.size)

/-- Repeated non-blocking enqueue of `(data, size)` pairs. -/
def enqueue_list (q : safe_queue_t) (xs : List (Nat × Nat)) (now : Nat) :
    safe_queue_t :=
  xs.foldl (fun acc x => (safe_queue_enqueue_nb acc x.1 x.2 now).2) q

/-- `k` successive non-blocking dequeues, collecting the returned items. -/
def dequeue_list (q : safe_queue_t) (k : Nat) :
    safe_queue_t × List queue_item_t :=
  match k with
  | 0 => (q, [])
  | k + 1 =>
    let r := safe_queue_dequeue_nb q
    match r.2.2 with
    | none => (r.2.1, [])
    | some it =>
      let rest := dequeue_list r.2.1 k
      (rest.1, it :: rest.2)

/-- States reachable by any sequence of queue operations from a successful
`safe_queue_init`. -/
inductive QueueReach : safe_queue_t → Prop where
  | init (n : Nat) (q : safe_queue_t) :
      safe_queue_init n = some q → QueueReach q
  | enq_nb (q : safe_queue_t) (d s now : Nat) :
      QueueReach q → QueueReach (safe_queue_enqueue_nb q d s now).2
  | enq_b (q : safe_queue_t) (d s now : Nat) :
      QueueReach q → QueueReach (safe_queue_enqueue q d s now).2
  | deq_nb (q : safe_queue_t) :
      QueueReach q → QueueReach (safe_queue_dequeue_nb q).2.1
  | deq_b (q : safe_queue_t) :
      QueueReach q → QueueReach (safe_queue_dequeue q).2.1
  | clear (q : safe_queue_t) :
      QueueReach q → QueueReach (safe_queue_clear q)

/-- The capacity-4 queue of Scenario A, as produced by `safe_queue_init 4`. -/
def qA0 : safe_queue_t :=
  { items := fun _ => zero_item
    head := 0
    tail := 0
    count := 0
    max_size := 4
    next_sequence_id := 1
    total_enqueued := 0
    total_dequeued := 0
    overrun_count := 0 }

/-- Scenario A: the queue after enqueuing items 1,2,3,4 (size 1 each). -/
def qA_full : safe_queue_t := enqueue_list qA0 [(1, 1), (2, 1), (3, 1), (4, 1)] 0

/-- Scenario A: the attempted 5th enqueue. -/
def qA5 : QueueRc × safe_queue_t := safe_queue_enqueue_nb qA_full 5 1 0

/-- Scenario A: four dequeues from the (full-attempted) queue. -/
def qA_drain : safe_queue_t × List queue_item_t := dequeue_list qA5.2 4

/-- Scenario A intermediate states: after each of the four enqueues. -/
def qA1 : QueueRc × safe_queue_t := safe_queue_enqueue_nb qA0 1 1 0

def qA2 : QueueRc × safe_queue_t := safe_queue_enqueue_nb qA1.2 2 1 0

def qA3 : QueueRc × safe_queue_t := safe_queue_enqueue_nb qA2.2 3 1 0

def qA4 : QueueRc × safe_queue_t := safe_queue_enqueue_nb qA3.2 4 1 0

/-! ## safe_buffer.c -/

/-- Return codes of `safe_buffer.h` (`BUFFER_OK`, `BUFFER_ERROR_FULL`, ...). -/
inductive BufferRc where
  | ok
  | full
  | empty
  | timeout
  | invalid
deriving DecidableEq, Repr

/-- `safe_buffer_t`: circular byte store (bytes as `Nat`), ring indices and
statistics counters.  The backing `uint8_t *data` array is a total function
from offsets to byte values. -/
structure safe_buffer_t where
  data : Nat → Nat
  size : Nat
  head : Nat
  tail : Nat
  count : Nat
  write_count : Nat
  read_count : Nat
  overflow_count : Nat
  overwrite_on_full : Bool

/-- `safe_buffer_init`: rejects zero size; the storage's initial bytes are the
caller's array (the C code does not clear them). -/
def safe_buffer_init (storage : Nat → Nat) (size : Nat)
    (overwrite_on_full : Bool) : Option safe_buffer_t :=
  if size = 0 then
    none
  else
    some { data := storage
           size := size
           head := 0
           tail := 0
           count := 0
           write_count := 0
           read_count := 0
           overflow_count := 0
           overwrite_on_full := overwrite_on_full }

/-- `memcpy(&data[pos], src, src.length)` on the byte store. -/
def mem_write (d : Nat → Nat) (pos : Nat) (src : List Nat) : Nat → Nat :=
  fun j => if pos ≤ j ∧ j < pos + src.length then src.getD (j - pos) 0 else d j

/-- The chunk-copy `while` loop of `safe_buffer_write_nb`: writes `src` at
`tail` in contiguous chunks (at most `size - tail` bytes at a time), in
overwrite mode first advancing `head` over the oldest bytes when the chunk
does not fit, and clamping `count` at `size`.  A chunk is nonempty whenever
`tail < size`, which well-formedness guarantees; the degenerate `chunk = 0`
case (an infinite loop in C, unreachable from a valid state) returns the
state unchanged.  The structural `fuel` argument only bounds the number of
iterations: every call passes the source length, which suffices because each
iteration consumes at least one byte. -/
def write_loop : Nat → safe_buffer_t → List Nat → safe_buffer_t
  | 0, b, _ => b
  | fuel + 1, b, src =>
    if src.length = 0 then
      b
    else
      let chunk := min src.length (b.size - b.tail)
      if chunk = 0 then
        b
      else
        let b1 :=
          if b.overwrite_on_full = true ∧ b.size < b.count + chunk then
            { b with
              head := (b.head + (b.count + chunk - b.size)) % b.size
              count := b.count - (b.count + chunk - b.size) }
          else b
        let b2 :=
          { b1 with
            data := mem_write b1.data b1.tail (src.take chunk)
            tail := (b1.tail + chunk) % b1.size
            count := b1.count + chunk }
        let b3 :=
          if b2.size < b2.count then { b2 with count := b2.size } else b2
        write_loop fuel b3 (src.drop chunk)

/-- `safe_buffer_write_nb`: returns (rc, new state, `*written`). -/
def safe_buffer_write_nb (b : safe_buffer_t) (src : List Nat) :
    BufferRc × safe_buffer_t × Nat :=
  if src.length = 0 then
    (.invalid, b, 0)
  else
    let available_space := b.size - b.count
    if available_space < src.length ∧ b.overwrite_on_full = false ∧
        available_space = 0 then
      (.full, b, 0)
    else
      let b0 :=
        if available_space < src.length ∧ b.overwrite_on_full = true then
          { b with overflow_count := (b.overflow_count + 1) % U32 }
        else b
      let bytes_to_write :=
        if available_space < src.length ∧ b.overwrite_on_full = false then
          available_space
        else src.length
      let b1 := write_loop (src.take bytes_to_write).length b0
        (src.take bytes_to_write)
      (.ok, { b1 with write_count := (b1.write_count + 1) % U32 },
        bytes_to_write)

/-- `safe_buffer_write` (blocking).  In overwrite mode the wait loop is never
entered; otherwise, with no concurrent reader, a buffer whose free space is
smaller than `len` never gains space, so the wait ends in the timeout branch.
When the guard passes the C code re-runs `safe_buffer_write_nb`. -/
def safe_buffer_write (b : safe_buffer_t) (src : List Nat) :
    BufferRc × safe_buffer_t × Nat :=
  if src.length = 0 then
    (.invalid, b, 0)
  else if b.overwrite_on_full = false ∧ b.size - b.count < src.length then
    (.timeout, b, 0)
  else
    safe_buffer_write_nb b src

/-- The chunk-copy `while` loop of `safe_buffer_read_nb`: reads `remaining`
bytes starting at `head` in contiguous chunks, advancing `head` and
decrementing `count`.  As for `write_loop`, the structural `fuel` argument
only bounds the iteration count; every call passes `remaining` itself. -/
def read_loop : Nat → safe_buffer_t → Nat → safe_buffer_t × List Nat
  | 0, b, _ => (b, [])
  | fuel + 1, b, remaining =>
    if remaining = 0 then
      (b, [])
    else
      let chunk := min remaining (b.size - b.head)
      if chunk = 0 then
        (b, [])
      else
        let bytes := (List.range chunk).map (fun i => b.data (b.head + i))
        let b2 :=
          { b with
            head := (b.head + chunk) % b.size
            count := b.count - chunk }
        let r := read_loop fuel b2 (remaining - chunk)
        (r.1, bytes ++ r.2)

/-- `safe_buffer_read_nb`: returns (rc, new state, bytes copied to `*data`). -/
def safe_buffer_read_nb (b : safe_buffer_t) (size : Nat) :
    BufferRc × safe_buffer_t × List Nat :=
  if size = 0 then
    (.invalid, b, [])
  else if b.count = 0 then
    (.empty, b, [])
  else
    let bytes_to_read := if size < b.count then size else b.count
    let r := read_loop bytes_to_read b bytes_to_read
    (.ok, { r.1 with read_count := (r.1.read_count + 1) % U32 }, r.2)

/-- `safe_buffer_read` (blocking): an empty buffer stays empty with no
concurrent writer, so the wait ends in the timeout branch; otherwise the C
code re-runs `safe_buffer_read_nb`. -/
def safe_buffer_read (b : safe_buffer_t) (size : Nat) :
    BufferRc × safe_buffer_t × List Nat :=
  if size = 0 then
    (.invalid, b, [])
  else if b.count = 0 then
    (.timeout, b, [])
  else
    safe_buffer_read_nb b size

/-- `safe_buffer_available`. -/
def safe_buffer_available (b : safe_buffer_t) : Nat := b.count

/-- `safe_buffer_free_space`. -/
def safe_buffer_free_space (b : safe_buffer_t) : Nat := b.size - b.count

/-- `safe_buffer_is_empty`. -/
def safe_buffer_is_empty (b : safe_buffer_t) : Bool :=
  safe_buffer_available b = 0

/-- `safe_buffer_is_full`. -/
def safe_buffer_is_full (b : safe_buffer_t) : Bool :=
  safe_buffer_free_space b = 0

/-- `safe_buffer_clear`: resets head/tail/count only. -/
def safe_buffer_clear (b : safe_buffer_t) : safe_buffer_t :=
  { b with head := 0, tail := 0, count := 0 }

/-- `safe_buffer_get_stats`: the out-parameters, in order. -/
def safe_buffer_get_stats (b : safe_buffer_t) : Nat × Nat × Nat :=
  (b.write_count, b.read_count, b.overflow_count)

/-! ### Buffer abstraction -/

/-- The unread bytes, oldest first: `count` bytes starting at `head`. -/
def buffer_contents (b : safe_buffer_t) : List Nat :=
  (List.range b.count).map (fun i => b.data ((b.head + i) % b.size))

/-- Ring well-formedness for the byte buffer. -/
structure BufferWF (b : safe_buffer_t) : Prop where
  size_pos : 0 < b.size
  head_lt : b.head < b.size
  tail_lt : b.tail < b.size
  count_le : b.count ≤ b.size
  tail_eq : b.tail = (b.head + b.count) % b.size

/-- States reachable by any sequence of buffer operations from a successful
`safe_buffer_init`. -/
inductive BufferReach : safe_buffer_t → Prop where
  | init (storage : Nat → Nat) (size : Nat) (ow : Bool) (b : safe_buffer_t) :
      safe_buffer_init storage size ow = some b → BufferReach b
  | write_nb (b : safe_buffer_t) (src : List Nat) :
      BufferReach b → BufferReach (safe_buffer_write_nb b src).2.1
  | write_b (b : safe_buffer_t) (src : List Nat) :
      BufferReach b → BufferReach (safe_buffer_write b src).2.1
  | read_nb (b : safe_buffer_t) (n : Nat) :
      BufferReach b → BufferReach (safe_buffer_read_nb b n).2.1
  | read_b (b : safe_buffer_t) (n : Nat) :
      BufferReach b → BufferReach (safe_buffer_read b n).2.1
  | clear (b : safe_buffer_t) :
      BufferReach b → BufferReach (safe_buffer_clear b)

/-- The most recent `n` elements of a list. -/
def lastN (n : Nat) (l : List Nat) : List Nat := l.drop (l.length - n)

/-- A whole history of non-blocking writes, applied in order. -/
def write_all (b : safe_buffer_t) (css : List (List Nat)) : safe_buffer_t :=
  css.foldl (fun acc cs => (safe_buffer_write_nb acc cs).2.1) b

/-- Scenario B: fresh capacity-8 buffer, `overwrite_on_full = false`. -/
def bB0 : safe_buffer_t :=
  { data := fun _ => 0
    size := 8
    head := 0
    tail := 0
    count := 0
    write_count := 0
    read_count := 0
    overflow_count := 0
    overwrite_on_full := false }

/-- Scenario B: write "ABCDE". -/
def bB1 : BufferRc × safe_buffer_t × Nat :=
  safe_buffer_write_nb bB0 [65, 66, 67, 68, 69]

/-- Scenario B: write "FGHIJ". -/
def bB2 : BufferRc × safe_buffer_t × Nat :=
  safe_buffer_write_nb bB1.2.1 [70, 71, 72, 73, 74]

/-- Scenario B: read 8 bytes. -/
def bB3 : BufferRc × safe_buffer_t × List Nat :=
  safe_buffer_read_nb bB2.2.1 8

/-- Scenario C: fresh capacity-4 buffer, `overwrite_on_full = true`. -/
def bC0 : safe_buffer_t :=
  { data := fun _ => 0
    size := 4
    head := 0
    tail := 0
    count := 0
    write_count := 0
    read_count := 0
    overflow_count := 0
    overwrite_on_full := true }

/-- Scenario C: write "ABCD". -/
def bC1 : BufferRc × safe_buffer_t × Nat :=
  safe_buffer_write_nb bC0 [65, 66, 67, 68]

/-- Scenario C: write "EF" (blocking entry point, as in the spec scenario it
must succeed immediately). -/
def bC2 : BufferRc × safe_buffer_t × Nat :=
  safe_buffer_write bC1.2.1 [69, 70]

/-- Scenario C: read 4 bytes. -/
def bC3 : BufferRc × safe_buffer_t × List Nat :=
  safe_buffer_read_nb bC2.2.1 4

/-! ## thread_manager.c -/

/-- `thread_state_t` from `thread_manager.h`. -/
inductive thread_state_t where
  | stopped
  | starting
  | running
  | suspended
  | error
deriving DecidableEq, Repr

/-- `THREAD_ID_MAX` (the enum has five thread identifiers). -/
def THREAD_ID_MAX : Nat := 5

/-- `thread_id_t` enum values, in declaration order. -/
def THREAD_ID_SUPERVISOR : Nat := 0

def THREAD_ID_DATA_ACQUISITION : Nat := 1

def THREAD_ID_DATA_PROCESSING : Nat := 2

def THREAD_ID_COMMUNICATION : Nat := 3

def THREAD_ID_DIAGNOSTICS : Nat := 4

/-- Priority macros from `thread_manager.h`. -/
def THREAD_PRIO_SUPERVISOR : Nat := 1

def THREAD_PRIO_DATA_ACQ : Nat := 1

def THREAD_PRIO_COMMUNICATION : Nat := 3

def THREAD_PRIO_DATA_PROC : Nat := 4

def THREAD_PRIO_DIAGNOSTICS : Nat := 5

/-- Stack-size macros from `thread_manager.h`. -/
def THREAD_STACK_SUPERVISOR : Nat := 1024

def THREAD_STACK_DATA_ACQ : Nat := 1536

def THREAD_STACK_COMMUNICATION : Nat := 1024

def THREAD_STACK_DATA_PROC : Nat := 1536

def THREAD_STACK_DIAGNOSTICS : Nat := 512

/-- `thread_stack_sizes` exactly as initialized in `thread_manager.c`
(indexed by `thread_id_t`, initializers listed in this source order). -/
def thread_stack_sizes : List Nat :=
  [THREAD_STACK_SUPERVISOR,
   THREAD_STACK_DATA_ACQ,
   THREAD_STACK_COMMUNICATION,
   THREAD_STACK_DATA_PROC,
   THREAD_STACK_DIAGNOSTICS]

/-- `thread_priorities` exactly as initialized in `thread_manager.c`. -/
def thread_priorities : List Nat :=
  [THREAD_PRIO_SUPERVISOR,
   THREAD_PRIO_DATA_ACQ,
   THREAD_PRIO_COMMUNICATION,
   THREAD_PRIO_DATA_PROC,
   THREAD_PRIO_DIAGNOSTICS]

/-- `thread_names` exactly as initialized in `thread_manager.c`. -/
def thread_names : List String :=
  ["supervisor",
   "data_acquisition",
   "data_processing",
   "communication",
   "diagnostics"]

/-- The stack size the specification associates with each identifier: the
`THREAD_STACK_*` macro named for that identifier (spec: "the identifier's
pre-declared stack size").  Kept separate from the array the code indexes,
to compare the two. -/
def claimed_stack_size : Nat → Nat
  | 0 => THREAD_STACK_SUPERVISOR
  | 1 => THREAD_STACK_DATA_ACQ
  | 2 => THREAD_STACK_DATA_PROC
  | 3 => THREAD_STACK_COMMUNICATION
  | _ => THREAD_STACK_DIAGNOSTICS

/-- The priority the specification associates with each identifier: the
`THREAD_PRIO_*` macro named for that identifier. -/
def claimed_priority : Nat → Nat
  | 0 => THREAD_PRIO_SUPERVISOR
  | 1 => THREAD_PRIO_DATA_ACQ
  | 2 => THREAD_PRIO_DATA_PROC
  | 3 => THREAD_PRIO_COMMUNICATION
  | _ => THREAD_PRIO_DIAGNOSTICS

/-- `thread_info_t`.  `watchdog_timeout` is stored in milliseconds, the value
`k_ticks_to_ms_floor64` produces from the stored `k_timeout_t` ticks;
`K_SECONDS(30)` is 30000 ms. -/
structure thread_info_t where
  id : Nat
  name : String
  state : thread_state_t
  run_count : Nat
  error_count : Nat
  watchdog_timeout_ms : Nat
  last_heartbeat : Int
deriving DecidableEq, Repr

/-- The (stack, priority) pair handed to `k_thread_create`. -/
structure os_thread_request where
  stack_size : Nat
  priority : Nat
deriving DecidableEq, Repr

/-- The module-level state of `thread_manager.c`: `manager_initialized`, the
`thread_infos` table and which slots of `thread_ids` are non-NULL. -/
structure thread_manager_state where
  initialized : Bool
  infos : Nat → thread_info_t
  created : Nat → Bool

/-- `thread_manager_init`. -/
def thread_manager_init : thread_manager_state :=
  { initialized := true
    infos := fun i =>
      { id := i
        name := thread_names.getD i ""
        state := .stopped
        run_count := 0
        error_count := 0
        watchdog_timeout_ms := 30000
        last_heartbeat := 0 }
    created := fun _ => false }

/-- `thread_manager_create_thread`: validates, rejects an already-associated
identifier, then starts an OS thread with `thread_stacks[id]`,
`thread_stack_sizes[id]` and `thread_priorities[id]` and marks the record
`Starting` with a fresh heartbeat stamp.  `k_thread_create` itself is
modelled as succeeding (its failure path only depends on the kernel); the
returned `os_thread_request` records the configuration passed to it.
`entry_nonnull` stands for `entry != NULL`; `now` is `k_uptime_get()`. -/
def thread_manager_create_thread (m : thread_manager_state) (id : Nat)
    (entry_nonnull : Bool) (now : Int) :
    Int × thread_manager_state × Option os_thread_request :=
  if m.initialized = false ∨ id ≥ THREAD_ID_MAX ∨ entry_nonnull = false then
    (-1, m, none)
  else if m.created id = true then
    (-1, m, none)
  else
    (0,
      { m with
        created := fun j => if j = id then true else m.created j
        infos := fun j =>
          if j = id then
            { m.infos j with state := .starting, last_heartbeat := now }
          else m.infos j },
      some { stack_size := thread_stack_sizes.getD id 0
             priority := thread_priorities.getD id 0 })

/-- `thread_manager_heartbeat`. -/
def thread_manager_heartbeat (m : thread_manager_state) (id : Nat)
    (now : Int) : thread_manager_state :=
  if m.initialized = false ∨ id ≥ THREAD_ID_MAX then
    m
  else
    { m with
      infos := fun j =>
        if j = id then
          let info := m.infos j
          let info :=
            { info with
              last_heartbeat := now
              run_count := (info.run_count + 1) % U32 }
          if info.state = .starting then { info with state := .running }
          else info
        else m.infos j }

/-- The per-record test of `thread_manager_check_watchdogs`: a `Running`
record whose elapsed time since the last heartbeat exceeds its timeout. -/
def watchdog_tripped (info : thread_info_t) (now : Int) : Bool :=
  info.state == .running &&
    decide ((info.watchdog_timeout_ms : Int) < now - info.last_heartbeat)

/-- `thread_manager_check_watchdogs`: counts tripped `Running` records and
increments each one's error count; changes no state. -/
def thread_manager_check_watchdogs (m : thread_manager_state) (now : Int) :
    Nat × thread_manager_state :=
  if m.initialized = false then
    (0, m)
  else
    (((List.range THREAD_ID_MAX).filter
        (fun i => watchdog_tripped (m.infos i) now)).length,
      { m with
        infos := fun j =>
          if j < THREAD_ID_MAX ∧ watchdog_tripped (m.infos j) now = true then
            { m.infos j with
              error_count := ((m.infos j).error_count + 1) % U32 }
          else m.infos j })

/-- `thread_manager_get_name`. -/
def thread_manager_get_name (id : Nat) : String :=
  if id ≥ THREAD_ID_MAX then "unknown" else thread_names.getD id ""

/-- Scenario E setup: init, create the supervisor thread at time 0. -/
def tmE1 : thread_manager_state :=
  (thread_manager_create_thread thread_manager_init THREAD_ID_SUPERVISOR
    true 0).2.1

/-- Scenario E: first heartbeat at time 0 moves it to `Running`. -/
def tmE2 : thread_manager_state :=
  thread_manager_heartbeat tmE1 THREAD_ID_SUPERVISOR 0

/-- Scenario E: watchdog check at `timeout_ms + 1`. -/
def tmE3 : Nat × thread_manager_state :=
  thread_manager_check_watchdogs tmE2 30001

/-- Scenario E: a second check with no new heartbeat. -/
def tmE4 : Nat × thread_manager_state :=
  thread_manager_check_watchdogs tmE3.2 30001

/-! ## Theorems -/

theorem safe_queue_init_wf {n : Nat} {q : safe_queue_t}
    (h : safe_queue_init n = some q) : QueueWF q := by
  unfold safe_queue_init at h
  split at h
  · exact absurd h (by simp)
  · rename_i hcond
    push_neg at hcond
    cases h
    exact ⟨Nat.pos_of_ne_zero hcond.1, hcond.2, Nat.pos_of_ne_zero hcond.1,
      Nat.pos_of_ne_zero hcond.1, Nat.zero_le _, by simp⟩

/-- Cancellation of ring positions: `(a + i) % n` determines `i` on `[0,n)`. -/
theorem ring_pos_inj {n a i j : Nat} (hi : i < n) (hj : j < n)
    (h : (a + i) % n = (a + j) % n) : i = j := by
  have h2 : i ≡ j [MOD n] := Nat.ModEq.add_left_cancel' a h
  have h3 : i % n = j % n := h2
  rwa [Nat.mod_eq_of_lt hi, Nat.mod_eq_of_lt hj] at h3

theorem ring_pos_lt {n a : Nat} (hn : 0 < n) (i : Nat) : (a + i) % n < n :=
  Nat.mod_lt _ hn

/-- A successful non-blocking enqueue appends the new item to the abstract
contents and preserves well-formedness. -/
theorem enqueue_nb_ok {q : safe_queue_t} (hwf : QueueWF q) {d s : Nat}
    (now : Nat) (hd : d ≠ 0) (hs : s ≠ 0) (hfull : q.count < q.max_size) :
    safe_queue_enqueue_nb q d s now =
      (.ok,
        { q with
          items := fun j =>
            if j = q.tail then ⟨d, s, now % U32, q.next_sequence_id⟩
            else q.items j
          tail := (q.tail + 1) % q.max_size
          count := q.count + 1
          next_sequence_id := (q.next_sequence_id + 1) % U32
          total_enqueued := (q.total_enqueued + 1) % U32 }) ∧
    QueueWF (safe_queue_enqueue_nb q d s now).2 ∧
    queue_contents (safe_queue_enqueue_nb q d s now).2
      = queue_contents q ++ [⟨d, s, now % U32, q.next_sequence_id⟩] := by
  have hguard : ¬ (d = 0 ∨ s = 0) := by tauto
  have hfull' : ¬ q.count ≥ q.max_size := Nat.not_le.mpr hfull
  have hstep : safe_queue_enqueue_nb q d s now =
      (.ok,
        { q with
          items := fun j =>
            if j = q.tail then ⟨d, s, now % U32, q.next_sequence_id⟩
            else q.items j
          tail := (q.tail + 1) % q.max_size
          count := q.count + 1
          next_sequence_id := (q.next_sequence_id + 1) % U32
          total_enqueued := (q.total_enqueued + 1) % U32 }) := by
    simp only [safe_queue_enqueue_nb, if_neg hguard, if_neg hfull']
  refine ⟨hstep, ?_, ?_⟩
  · rw [hstep]
    refine ⟨hwf.size_pos, hwf.size_le, hwf.head_lt, Nat.mod_lt _ hwf.size_pos,
      hfull, ?_⟩
    show (q.tail + 1) % q.max_size = (q.head + (q.count + 1)) % q.max_size
    rw [hwf.tail_eq, Nat.mod_add_mod, Nat.add_assoc]
  · rw [hstep]
    show List.map _ (List.range (q.count + 1)) = _
    apply List.ext_getElem
    · simp [queue_contents]
    · intro i h1 h2
      simp only [List.getElem_map, List.getElem_range]
      show (if (q.head + i) % q.max_size = q.tail then
              (⟨d, s, now % U32, q.next_sequence_id⟩ : queue_item_t)
            else q.items ((q.head + i) % q.max_size)) = _
      have hlen : (queue_contents q).length = q.count := by
        simp [queue_contents]
      rcases Nat.lt_or_ge i q.count with hi | hi
      · have hne : (q.head + i) % q.max_size ≠ q.tail := by
          rw [hwf.tail_eq]
          intro hc
          have := ring_pos_inj (Nat.lt_of_lt_of_le hi hwf.count_le) hfull hc
          omega
        rw [if_neg hne, List.getElem_append_left (by omega)]
        simp [queue_contents]
      · have hieq : i = q.count := by
          simp only [List.length_map, List.length_range] at h1
          omega
        subst hieq
        rw [if_pos hwf.tail_eq.symm, List.getElem_append_right (by omega)]
        simp [hlen]

/-- A non-blocking enqueue on a full queue fails with `Full`, bumps the
overrun counter and changes nothing else. -/
theorem enqueue_nb_full {q : safe_queue_t} {d s : Nat} (now : Nat)
    (hd : d ≠ 0) (hs : s ≠ 0) (hfull : q.count ≥ q.max_size) :
    (safe_queue_enqueue_nb q d s now).1 = .full ∧
    (safe_queue_enqueue_nb q d s now).2
      = { q with overrun_count := (q.overrun_count + 1) % U32 } := by
  have hguard : ¬ (d = 0 ∨ s = 0) := by tauto
  simp [safe_queue_enqueue_nb, if_neg hguard, hfull]

/-- A successful non-blocking dequeue removes and returns the oldest item. -/
theorem dequeue_nb_ok {q : safe_queue_t} (hwf : QueueWF q)
    (hne : q.count ≠ 0) :
    (safe_queue_dequeue_nb q).1 = .ok ∧
    QueueWF (safe_queue_dequeue_nb q).2.1 ∧
    (safe_queue_dequeue_nb q).2.2 = (queue_contents q).head? ∧
    queue_contents (safe_queue_dequeue_nb q).2.1 = (queue_contents q).tail ∧
    (safe_queue_dequeue_nb q).2.1.count = q.count - 1 ∧
    (safe_queue_dequeue_nb q).2.1.max_size = q.max_size ∧
    (safe_queue_dequeue_nb q).2.1.items = q.items ∧
    (safe_queue_dequeue_nb q).2.1.total_dequeued
      = (q.total_dequeued + 1) % U32 := by
  have hstep : safe_queue_dequeue_nb q =
      (.ok,
        { q with
          head := (q.head + 1) % q.max_size
          count := q.count - 1
          total_dequeued := (q.total_dequeued + 1) % U32 },
        some (q.items q.head)) := by
    simp only [safe_queue_dequeue_nb, if_neg hne]
  rw [hstep]
  obtain ⟨k, hk⟩ : ∃ k, q.count = k + 1 := ⟨q.count - 1, by omega⟩
  have hcont : queue_contents q
      = q.items q.head ::
        (List.range k).map
          (fun i => q.items ((q.head + Nat.succ i) % q.max_size)) := by
    unfold queue_contents
    rw [hk, List.range_succ_eq_map]
    simp [Nat.mod_eq_of_lt hwf.head_lt, List.map_map, Function.comp]
  refine ⟨rfl, ?_, ?_, ?_, rfl, rfl, rfl, rfl⟩
  · refine ⟨hwf.size_pos, hwf.size_le, Nat.mod_lt _ hwf.size_pos, hwf.tail_lt,
      Nat.le_trans (Nat.sub_le _ _) hwf.count_le, ?_⟩
    show q.tail = ((q.head + 1) % q.max_size + (q.count - 1)) % q.max_size
    rw [hwf.tail_eq, Nat.mod_add_mod]
    congr 1
    omega
  · rw [hcont]
    rfl
  · show List.map _ (List.range (q.count - 1)) = _
    rw [hcont]
    simp only [List.tail_cons, hk, Nat.add_sub_cancel]
    apply List.map_congr_left
    intro a _
    rw [Nat.mod_add_mod]
    congr 2
    omega

/-- `clear` preserves well-formedness. -/
theorem clear_wf {q : safe_queue_t} (hwf : QueueWF q) :
    QueueWF (safe_queue_clear q) :=
  ⟨hwf.size_pos, hwf.size_le, hwf.size_pos, hwf.size_pos, Nat.zero_le _,
    by simp [safe_queue_clear]⟩

theorem safe_queue_init_fields {n : Nat} {q : safe_queue_t}
    (h : safe_queue_init n = some q) :
    q.count = 0 ∧ q.max_size = n ∧ queue_contents q = [] ∧
    q.overrun_count = 0 := by
  unfold safe_queue_init at h
  split at h
  · exact absurd h (by simp)
  · cases h
    exact ⟨rfl, rfl, rfl, rfl⟩

/-- Every branch of the non-blocking enqueue preserves well-formedness. -/
theorem enqueue_nb_wf {q : safe_queue_t} (hwf : QueueWF q) (d s now : Nat) :
    QueueWF (safe_queue_enqueue_nb q d s now).2 := by
  unfold safe_queue_enqueue_nb
  split
  · exact hwf
  · split
    · exact ⟨hwf.size_pos, hwf.size_le, hwf.head_lt, hwf.tail_lt,
        hwf.count_le, hwf.tail_eq⟩
    · rename_i h2
      refine ⟨hwf.size_pos, hwf.size_le, hwf.head_lt,
        Nat.mod_lt _ hwf.size_pos, Nat.lt_of_not_le h2, ?_⟩
      show (q.tail + 1) % q.max_size = (q.head + (q.count + 1)) % q.max_size
      rw [hwf.tail_eq, Nat.mod_add_mod, Nat.add_assoc]

/-- Every branch of the blocking enqueue preserves well-formedness. -/
theorem enqueue_b_wf {q : safe_queue_t} (hwf : QueueWF q) (d s now : Nat) :
    QueueWF (safe_queue_enqueue q d s now).2 := by
  unfold safe_queue_enqueue
  split
  · exact hwf
  · split
    · exact hwf
    · rename_i h2
      refine ⟨hwf.size_pos, hwf.size_le, hwf.head_lt,
        Nat.mod_lt _ hwf.size_pos, Nat.lt_of_not_le h2, ?_⟩
      show (q.tail + 1) % q.max_size = (q.head + (q.count + 1)) % q.max_size
      rw [hwf.tail_eq, Nat.mod_add_mod, Nat.add_assoc]

/-- Every branch of the non-blocking dequeue preserves well-formedness. -/
theorem dequeue_nb_wf {q : safe_queue_t} (hwf : QueueWF q) :
    QueueWF (safe_queue_dequeue_nb q).2.1 := by
  unfold safe_queue_dequeue_nb
  split
  · exact hwf
  · rename_i h2
    refine ⟨hwf.size_pos, hwf.size_le, Nat.mod_lt _ hwf.size_pos, hwf.tail_lt,
      Nat.le_trans (Nat.sub_le _ _) hwf.count_le, ?_⟩
    show q.tail = ((q.head + 1) % q.max_size + (q.count - 1)) % q.max_size
    rw [hwf.tail_eq, Nat.mod_add_mod]
    congr 1
    omega

/-- Every branch of the blocking dequeue preserves well-formedness. -/
theorem dequeue_b_wf {q : safe_queue_t} (hwf : QueueWF q) :
    QueueWF (safe_queue_dequeue q).2.1 := by
  unfold safe_queue_dequeue
  split
  · exact hwf
  · rename_i h2
    refine ⟨hwf.size_pos, hwf.size_le, Nat.mod_lt _ hwf.size_pos, hwf.tail_lt,
      Nat.le_trans (Nat.sub_le _ _) hwf.count_le, ?_⟩
    show q.tail = ((q.head + 1) % q.max_size + (q.count - 1)) % q.max_size
    rw [hwf.tail_eq, Nat.mod_add_mod]
    congr 1
    omega

/-- Every reachable queue state is well-formed. -/
theorem queue_reach_wf {q : safe_queue_t} (h : QueueReach q) : QueueWF q := by
  induction h with
  | init n q h => exact safe_queue_init_wf h
  | enq_nb q d s now _ ih => exact enqueue_nb_wf ih d s now
  | enq_b q d s now _ ih => exact enqueue_b_wf ih d s now
  | deq_nb q _ ih => exact dequeue_nb_wf ih
  | deq_b q _ ih => exact dequeue_b_wf ih
  | clear q _ ih => exact clear_wf ih

/-- Enqueuing a list of `(data, size)` pairs that fits appends them, in
order, to the abstract contents. -/
theorem enqueue_list_spec (now : Nat) (xs : List (Nat × Nat)) :
    ∀ (q : safe_queue_t), QueueWF q → (∀ x ∈ xs, x.1 ≠ 0 ∧ x.2 ≠ 0) →
    q.count + xs.length ≤ q.max_size →
    QueueWF (enqueue_list q xs now) ∧
    (queue_contents (enqueue_list q xs now)).map item_ds
      = (queue_contents q).map item_ds ++ xs ∧
    (enqueue_list q xs now).count = q.count + xs.length ∧
    (enqueue_list q xs now).max_size = q.max_size := by
  induction xs with
  | nil =>
    intro q hwf _ _
    exact ⟨hwf, by simp [enqueue_list], by simp [enqueue_list],
      by simp [enqueue_list]⟩
  | cons x xs ih =>
    intro q hwf hxs hfit
    have hx : x.1 ≠ 0 ∧ x.2 ≠ 0 := hxs x (by simp)
    have hfull : q.count < q.max_size := by
      simp only [List.length_cons] at hfit
      omega
    obtain ⟨hstep, hwf1, hcont⟩ := enqueue_nb_ok hwf now hx.1 hx.2 hfull
    have hunf : enqueue_list q (x :: xs) now
        = enqueue_list (safe_queue_enqueue_nb q x.1 x.2 now).2 xs now := rfl
    rw [hunf, hstep] at *
    rw [hstep] at hwf1 hcont
    obtain ⟨ihwf, ihcont, ihcnt, ihmax⟩ :=
      ih _ hwf1 (fun x' hx' => hxs x' (by simp [hx'])) (by
        show q.count + 1 + xs.length ≤ q.max_size
        simp only [List.length_cons] at hfit
        omega)
    refine ⟨ihwf, ?_, ?_, ?_⟩
    · rw [ihcont, hcont]
      simp [item_ds]
    · rw [ihcnt]
      show q.count + 1 + xs.length = q.count + (xs.length + 1)
      omega
    · rw [ihmax]

/-- `k ≤ count` successive dequeues return the first `k` abstract contents in
order and leave the rest. -/
theorem dequeue_list_spec (k : Nat) :
    ∀ (q : safe_queue_t), QueueWF q → k ≤ q.count →
    QueueWF (dequeue_list q k).1 ∧
    (dequeue_list q k).2 = (queue_contents q).take k ∧
    queue_contents (dequeue_list q k).1 = (queue_contents q).drop k ∧
    (dequeue_list q k).1.count = q.count - k ∧
    (dequeue_list q k).1.max_size = q.max_size := by
  induction k with
  | zero =>
    intro q hwf _
    exact ⟨hwf, by simp [dequeue_list], by simp [dequeue_list],
      by simp [dequeue_list], by simp [dequeue_list]⟩
  | succ k ih =>
    intro q hwf hk
    have hne : q.count ≠ 0 := by omega
    obtain ⟨hrc, hwf1, hitem, hcont1, hcnt1, hmax1, _, _⟩ := dequeue_nb_ok hwf hne
    have hlen : (queue_contents q).length = q.count := by simp [queue_contents]
    obtain ⟨c, cs, hcs⟩ : ∃ c cs, queue_contents q = c :: cs := by
      cases hq : queue_contents q with
      | nil => rw [hq] at hlen; simp at hlen; omega
      | cons c cs => exact ⟨c, cs, rfl⟩
    have hsome : (safe_queue_dequeue_nb q).2.2 = some c := by
      rw [hitem, hcs]
      rfl
    have hunf : dequeue_list q (k + 1)
        = ((dequeue_list (safe_queue_dequeue_nb q).2.1 k).1,
           c :: (dequeue_list (safe_queue_dequeue_nb q).2.1 k).2) := by
      rw [dequeue_list]
      simp only [hsome]
    obtain ⟨ihwf, ihtake, ihdrop, ihcnt, ihmax⟩ :=
      ih _ hwf1 (by omega)
    rw [hunf]
    refine ⟨ihwf, ?_, ?_, ?_, ?_⟩
    · show c :: (dequeue_list (safe_queue_dequeue_nb q).2.1 k).2 = _
      rw [ihtake, hcont1, hcs]
      simp
    · rw [ihdrop, hcont1, hcs]
      simp
    · rw [ihcnt, hcnt1]
      omega
    · rw [ihmax, hmax1]

/-- C3: for every queue initialized with capacity n and every sequence of
k ≤ n successful enqueues followed by dequeues, the dequeue order equals the
enqueue order (strict FIFO); and in Scenario A (capacity 4) items 1,2,3,4
enqueue successfully, a 5th non-blocking enqueue returns `Full` with
overrun-count 1, four dequeues return 1,2,3,4 in order and the queue is then
empty. -/
theorem C3_fifo_order :
    (∀ (n : Nat) (q : safe_queue_t) (xs : List (Nat × Nat)) (now : Nat),
        safe_queue_init n = some q →
        (∀ x ∈ xs, x.1 ≠ 0 ∧ x.2 ≠ 0) →
        xs.length ≤ n →
        (dequeue_list (enqueue_list q xs now) xs.length).2.map item_ds = xs) ∧
    qA1.1 = QueueRc.ok ∧ qA2.1 = QueueRc.ok ∧ qA3.1 = QueueRc.ok ∧
    qA4.1 = QueueRc.ok ∧ qA4.2 = qA_full ∧
    qA5.1 = QueueRc.full ∧
    qA5.2.overrun_count = 1 ∧
    qA_drain.2.map item_ds = [(1, 1), (2, 1), (3, 1), (4, 1)] ∧
    safe_queue_is_empty qA_drain.1 = true := by
  refine ⟨?_, by decide, by decide, by decide, by decide, rfl, by decide,
    by decide, by decide, by decide⟩
  intro n q xs now hinit hxs hlen
  have hwf := safe_queue_init_wf hinit
  obtain ⟨hcnt0, hmax0, hcont0, _⟩ := safe_queue_init_fields hinit
  obtain ⟨hwf1, hcont1, hcnt1, hmax1⟩ :=
    enqueue_list_spec now xs q hwf hxs (by omega)
  obtain ⟨_, htake, _, _, _⟩ :=
    dequeue_list_spec xs.length (enqueue_list q xs now) hwf1 (by omega)
  rw [htake]
  have hlen1 : (queue_contents (enqueue_list q xs now)).length = xs.length := by
    simp [queue_contents, hcnt1, hcnt0]
  rw [← hlen1, List.take_length]
  rw [hcont0] at hcont1
  simpa using hcont1

/-- Witness for C3 at a concrete input: two enqueues then two dequeues on a
fresh capacity-4 queue return the pairs in enqueue order. -/
theorem C3_fifo_order_witness :
    (dequeue_list (enqueue_list qA0 [(7, 2), (8, 3)] 5) 2).2.map item_ds
      = [(7, 2), (8, 3)] :=
  C3_fifo_order.1 4 qA0 [(7, 2), (8, 3)] 5 rfl (by decide) (by decide)

/-- C8: `safe_queue_clear` resets head, tail and count to zero and leaves
every other field — including the statistics returned by
`safe_queue_get_stats` — unchanged. -/
theorem C8_clear_frame (q : safe_queue_t) :
    (safe_queue_clear q).head = 0 ∧
    (safe_queue_clear q).tail = 0 ∧
    (safe_queue_clear q).count = 0 ∧
    safe_queue_get_stats (safe_queue_clear q) = safe_queue_get_stats q ∧
    (safe_queue_clear q).items = q.items ∧
    (safe_queue_clear q).max_size = q.max_size ∧
    (safe_queue_clear q).next_sequence_id = q.next_sequence_id ∧
    (safe_queue_clear q).total_enqueued = q.total_enqueued ∧
    (safe_queue_clear q).total_dequeued = q.total_dequeued ∧
    (safe_queue_clear q).overrun_count = q.overrun_count :=
  ⟨rfl, rfl, rfl, rfl, rfl, rfl, rfl, rfl, rfl, rfl⟩

theorem buffer_contents_length (b : safe_buffer_t) :
    (buffer_contents b).length = b.count := by
  simp [buffer_contents]

/-- Writing `ys` at `tail` when it fits in free space and does not wrap
appends `ys` to the abstract contents. -/
theorem buf_append {b : safe_buffer_t} (hwf : BufferWF b) {ys : List Nat}
    {c : Nat} (hc : ys.length = c) (hfit : b.count + c ≤ b.size)
    (hnw : c ≤ b.size - b.tail) :
    BufferWF
      { b with
        data := mem_write b.data b.tail ys
        tail := (b.tail + c) % b.size
        count := b.count + c } ∧
    buffer_contents
      { b with
        data := mem_write b.data b.tail ys
        tail := (b.tail + c) % b.size
        count := b.count + c }
      = buffer_contents b ++ ys := by
  subst hc
  have htle : b.tail + ys.length ≤ b.size := by
    have := hwf.tail_lt
    omega
  have hpos : ∀ j, j < ys.length →
      (b.head + (b.count + j)) % b.size = b.tail + j := by
    intro j hj
    rw [← Nat.add_assoc, ← Nat.mod_add_mod, ← hwf.tail_eq,
      Nat.mod_eq_of_lt (by omega)]
  constructor
  · refine ⟨hwf.size_pos, hwf.head_lt, Nat.mod_lt _ hwf.size_pos, hfit, ?_⟩
    show (b.tail + ys.length) % b.size
      = (b.head + (b.count + ys.length)) % b.size
    rw [hwf.tail_eq, Nat.mod_add_mod, Nat.add_assoc]
  · show (List.range (b.count + ys.length)).map
        (fun i => mem_write b.data b.tail ys ((b.head + i) % b.size)) = _
    rw [List.range_add, List.map_append, List.map_map]
    congr 1
    · apply List.map_congr_left
      intro i hi
      have hi : i < b.count := List.mem_range.mp hi
      show mem_write b.data b.tail ys ((b.head + i) % b.size)
        = b.data ((b.head + i) % b.size)
      unfold mem_write
      rw [if_neg]
      rintro ⟨h3, h4⟩
      have hj : (b.head + i) % b.size - b.tail < ys.length := by omega
      have hpe : (b.head + i) % b.size
          = b.tail + ((b.head + i) % b.size - b.tail) := by omega
      have h6 : (b.head + i) % b.size
          = (b.head + (b.count + ((b.head + i) % b.size - b.tail))) % b.size := by
        rw [hpos _ hj, ← hpe]
      have h7 := ring_pos_inj (Nat.lt_of_lt_of_le hi hwf.count_le)
        (show b.count + ((b.head + i) % b.size - b.tail) < b.size by omega) h6
      omega
    · apply List.ext_getElem
      · simp
      · intro j h1 h2
        simp only [List.getElem_map, List.getElem_range, Function.comp]
        have hj : j < ys.length := by simpa using h2
        show mem_write b.data b.tail ys ((b.head + (b.count + j)) % b.size)
          = ys[j]
        unfold mem_write
        rw [hpos _ hj, if_pos ⟨Nat.le_add_right _ _, by omega⟩,
          Nat.add_sub_cancel_left, List.getD_eq_getElem _ _ hj]

/-- Advancing `head` over the `ow` oldest bytes drops them from the abstract
contents. -/
theorem buf_drop {b : safe_buffer_t} (hwf : BufferWF b) {ow : Nat}
    (how : ow ≤ b.count) :
    BufferWF
      { b with
        head := (b.head + ow) % b.size
        count := b.count - ow } ∧
    buffer_contents
      { b with
        head := (b.head + ow) % b.size
        count := b.count - ow }
      = (buffer_contents b).drop ow := by
  constructor
  · refine ⟨hwf.size_pos, Nat.mod_lt _ hwf.size_pos, hwf.tail_lt,
      Nat.le_trans (Nat.sub_le _ _) hwf.count_le, ?_⟩
    show b.tail = ((b.head + ow) % b.size + (b.count - ow)) % b.size
    rw [hwf.tail_eq, Nat.mod_add_mod]
    congr 1
    omega
  · show (List.range (b.count - ow)).map
        (fun i => b.data (((b.head + ow) % b.size + i) % b.size)) = _
    apply List.ext_getElem
    · simp [buffer_contents]
    · intro i h1 h2
      simp only [buffer_contents, List.getElem_drop, List.getElem_map,
        List.getElem_range]
      rw [Nat.mod_add_mod]
      congr 2
      omega

/-- One-step unfolding of `write_loop` when the chunk fits in free space. -/
theorem write_loop_step_fit (fuel : Nat) {b : safe_buffer_t}
    {src : List Nat} (hsrc : ¬ src.length = 0)
    (hchunk : ¬ min src.length (b.size - b.tail) = 0)
    (hnb : ¬ (b.overwrite_on_full = true ∧
      b.size < b.count + min src.length (b.size - b.tail)))
    (hnoclamp : ¬ (b.size < b.count + min src.length (b.size - b.tail))) :
    write_loop (fuel + 1) b src =
      write_loop fuel
        { b with
          data := mem_write b.data b.tail
            (src.take (min src.length (b.size - b.tail)))
          tail := (b.tail + min src.length (b.size - b.tail)) % b.size
          count := b.count + min src.length (b.size - b.tail) }
        (src.drop (min src.length (b.size - b.tail))) := by
  simp only [write_loop, if_neg hsrc, if_neg hchunk, if_neg hnb]
  rw [if_neg hnoclamp]

/-- One-step unfolding of `write_loop` in overwrite mode when the chunk does
not fit: the oldest bytes are dropped first. -/
theorem write_loop_step_ow (fuel : Nat) {b : safe_buffer_t}
    {src : List Nat} (hsrc : ¬ src.length = 0)
    (hchunk : ¬ min src.length (b.size - b.tail) = 0)
    (hb : b.overwrite_on_full = true ∧
      b.size < b.count + min src.length (b.size - b.tail)) :
    write_loop (fuel + 1) b src =
      write_loop fuel
        { b with
          data := mem_write b.data b.tail
            (src.take (min src.length (b.size - b.tail)))
          head := (b.head + (b.count + min src.length (b.size - b.tail)
            - b.size)) % b.size
          tail := (b.tail + min src.length (b.size - b.tail)) % b.size
          count := b.count - (b.count + min src.length (b.size - b.tail)
            - b.size) + min src.length (b.size - b.tail) }
        (src.drop (min src.length (b.size - b.tail))) := by
  simp only [write_loop, if_neg hsrc, if_neg hchunk, if_pos hb]
  rw [if_neg]
  have h2 := Nat.min_le_right src.length (b.size - b.tail)
  omega

/-- Effect of one overwrite-mode chunk step on the abstract contents: the
oldest `count + c - size` bytes are discarded and the chunk is appended. -/
theorem buf_ow_step {b : safe_buffer_t} (hwf : BufferWF b) {src : List Nat}
    {c : Nat} (hcs : c ≤ src.length) (hnw : c ≤ b.size - b.tail)
    (hlt : b.size < b.count + c) :
    BufferWF
      { b with
        data := mem_write b.data b.tail (src.take c)
        head := (b.head + (b.count + c - b.size)) % b.size
        tail := (b.tail + c) % b.size
        count := b.count - (b.count + c - b.size) + c } ∧
    buffer_contents
      { b with
        data := mem_write b.data b.tail (src.take c)
        head := (b.head + (b.count + c - b.size)) % b.size
        tail := (b.tail + c) % b.size
        count := b.count - (b.count + c - b.size) + c }
      = (buffer_contents b).drop (b.count + c - b.size) ++ src.take c := by
  have htail := hwf.tail_lt
  obtain ⟨hwfB, hcontB⟩ :=
    buf_drop hwf (show b.count + c - b.size ≤ b.count by omega)
  obtain ⟨hwfA, hcontA⟩ := buf_append hwfB
    (show (src.take c).length = c by rw [List.length_take]; omega)
    (by show b.count - (b.count + c - b.size) + c ≤ b.size; omega)
    (by show c ≤ b.size - b.tail; omega)
  exact ⟨hwfA, hcontA.trans (by rw [hcontB])⟩

/-- Master specification of the write loop: for a well-formed buffer, in
overwrite mode or when the data fits in free space, the loop keeps the buffer
well-formed, touches no counter, and leaves as contents the last
`min size (count + len)` bytes of `old contents ++ src`. -/
theorem write_loop_spec (fuel : Nat) :
    ∀ (src : List Nat) (b : safe_buffer_t), src.length ≤ fuel → BufferWF b →
    (b.overwrite_on_full = true ∨ src.length ≤ b.size - b.count) →
    BufferWF (write_loop fuel b src) ∧
    (write_loop fuel b src).size = b.size ∧
    (write_loop fuel b src).overwrite_on_full = b.overwrite_on_full ∧
    (write_loop fuel b src).write_count = b.write_count ∧
    (write_loop fuel b src).read_count = b.read_count ∧
    (write_loop fuel b src).overflow_count = b.overflow_count ∧
    (write_loop fuel b src).count = min b.size (b.count + src.length) ∧
    buffer_contents (write_loop fuel b src)
      = (buffer_contents b ++ src).drop (b.count + src.length - b.size) := by
  induction fuel with
  | zero =>
    intro src b hfuel hwf hok
    have hnil : src = [] := List.eq_nil_of_length_eq_zero (by omega)
    subst hnil
    have hz : write_loop 0 b [] = b := rfl
    have hcle := hwf.count_le
    rw [hz]
    refine ⟨hwf, rfl, rfl, rfl, rfl, rfl, ?_, ?_⟩
    · show b.count = min b.size (b.count + List.length ([] : List Nat))
      simp only [List.length_nil, Nat.add_zero]
      omega
    · show buffer_contents b = (buffer_contents b ++ []).drop
        (b.count + List.length ([] : List Nat) - b.size)
      rw [List.append_nil]
      simp only [List.length_nil, Nat.add_zero]
      rw [show b.count - b.size = 0 by omega, List.drop_zero]
  | succ n ih =>
    intro src b hfuel hwf hok
    by_cases hsrc : src.length = 0
    · have hnil : src = [] := List.eq_nil_of_length_eq_zero hsrc
      subst hnil
      have hz : write_loop (n + 1) b [] = b := by
        simp [write_loop]
      have hcle := hwf.count_le
      rw [hz]
      refine ⟨hwf, rfl, rfl, rfl, rfl, rfl, ?_, ?_⟩
      · show b.count = min b.size (b.count + List.length ([] : List Nat))
        simp only [List.length_nil, Nat.add_zero]
        omega
      · show buffer_contents b = (buffer_contents b ++ []).drop
          (b.count + List.length ([] : List Nat) - b.size)
        rw [List.append_nil]
        simp only [List.length_nil, Nat.add_zero]
        rw [show b.count - b.size = 0 by omega, List.drop_zero]
    · have htail := hwf.tail_lt
      have hcle := hwf.count_le
      have hcpos : 0 < min src.length (b.size - b.tail) := by omega
      have hchunk : ¬ min src.length (b.size - b.tail) = 0 := by omega
      have hcls : min src.length (b.size - b.tail) ≤ src.length :=
        Nat.min_le_left _ _
      have hclt : min src.length (b.size - b.tail) ≤ b.size - b.tail :=
        Nat.min_le_right _ _
      by_cases hb : b.overwrite_on_full = true ∧
        b.size < b.count + min src.length (b.size - b.tail)
      · rw [write_loop_step_ow n hsrc hchunk hb]
        generalize hcdef : min src.length (b.size - b.tail) = c at *
        obtain ⟨hbow, hblt⟩ := hb
        obtain ⟨hwfT, hcontT⟩ := buf_ow_step hwf hcls hclt hblt
        obtain ⟨ihwf, ihsize, ihow, ihwc, ihrc, ihoc, ihcnt, ihcont⟩ :=
          ih (src.drop c) _ (by rw [List.length_drop]; omega) hwfT
            (Or.inl (by exact hbow))
        refine ⟨ihwf, ihsize, ihow, ihwc, ihrc, ihoc, ?_, ?_⟩
        · refine ihcnt.trans ?_
          show min b.size (b.count - (b.count + c - b.size) + c
            + (src.drop c).length) = min b.size (b.count + src.length)
          rw [List.length_drop]
          omega
        · refine ihcont.trans ?_
          rw [hcontT]
          show ((buffer_contents b).drop (b.count + c - b.size) ++ src.take c
              ++ src.drop c).drop
              (b.count - (b.count + c - b.size) + c
                + (src.drop c).length - b.size)
            = (buffer_contents b ++ src).drop (b.count + src.length - b.size)
          rw [List.length_drop, List.append_assoc, List.take_append_drop]
          rw [show b.count - (b.count + c - b.size) + c
            + (src.length - c) - b.size = src.length - c by omega]
          rw [← List.drop_append_of_le_length
            (show b.count + c - b.size ≤ (buffer_contents b).length by
              rw [buffer_contents_length]; omega)]
          rw [List.drop_drop]
          congr 1
          omega
      · have hfit : b.count + min src.length (b.size - b.tail) ≤ b.size := by
          rcases hok with h | h
          · rcases Nat.lt_or_ge b.size
              (b.count + min src.length (b.size - b.tail)) with h2 | h2
            · exact absurd ⟨h, h2⟩ hb
            · omega
          · omega
        rw [write_loop_step_fit n hsrc hchunk hb (by omega)]
        generalize hcdef : min src.length (b.size - b.tail) = c at *
        obtain ⟨hwfT, hcontT⟩ := buf_append hwf
          (show (src.take c).length = c by rw [List.length_take]; omega)
          (by omega) (by omega)
        obtain ⟨ihwf, ihsize, ihow, ihwc, ihrc, ihoc, ihcnt, ihcont⟩ :=
          ih (src.drop c) _ (by rw [List.length_drop]; omega) hwfT (by
            rcases hok with h | h
            · exact Or.inl (by exact h)
            · refine Or.inr ?_
              show (src.drop c).length ≤ b.size - (b.count + c)
              rw [List.length_drop]
              omega)
        refine ⟨ihwf, ihsize, ihow, ihwc, ihrc, ihoc, ?_, ?_⟩
        · refine ihcnt.trans ?_
          show min b.size (b.count + c + (src.drop c).length)
            = min b.size (b.count + src.length)
          rw [List.length_drop]
          omega
        · refine ihcont.trans ?_
          rw [hcontT]
          show ((buffer_contents b ++ src.take c) ++ src.drop c).drop
              (b.count + c + (src.drop c).length - b.size)
            = (buffer_contents b ++ src).drop (b.count + src.length - b.size)
          rw [List.length_drop, List.append_assoc, List.take_append_drop]
          congr 1
          omega

/-- One-step unfolding of `read_loop`. -/
theorem read_loop_step (fuel : Nat) {b : safe_buffer_t} {remaining : Nat}
    (hrem : ¬ remaining = 0)
    (hchunk : ¬ min remaining (b.size - b.head) = 0) :
    read_loop (fuel + 1) b remaining =
      ((read_loop fuel
          { b with
            head := (b.head + min remaining (b.size - b.head)) % b.size
            count := b.count - min remaining (b.size - b.head) }
          (remaining - min remaining (b.size - b.head))).1,
        (List.range (min remaining (b.size - b.head))).map
            (fun i => b.data (b.head + i))
          ++ (read_loop fuel
              { b with
                head := (b.head + min remaining (b.size - b.head)) % b.size
                count := b.count - min remaining (b.size - b.head) }
              (remaining - min remaining (b.size - b.head))).2) := by
  simp only [read_loop, if_neg hrem, if_neg hchunk]

/-- A contiguous chunk at `head` is a prefix of the abstract contents. -/
theorem read_chunk_eq_take {b : safe_buffer_t} (hwf : BufferWF b) {c : Nat}
    (hch : c ≤ b.size - b.head) (hcc : c ≤ b.count) :
    (List.range c).map (fun i => b.data (b.head + i))
      = (buffer_contents b).take c := by
  unfold buffer_contents
  rw [← List.map_take, List.take_range, Nat.min_eq_left hcc]
  apply List.map_congr_left
  intro i hi
  have hi : i < c := List.mem_range.mp hi
  rw [Nat.mod_eq_of_lt (by omega)]

/-- Master specification of the read loop: reading `remaining ≤ count` bytes
returns the first `remaining` bytes of the contents and drops them. -/
theorem read_loop_spec (fuel : Nat) :
    ∀ (remaining : Nat) (b : safe_buffer_t), remaining ≤ fuel → BufferWF b →
    remaining ≤ b.count →
    BufferWF (read_loop fuel b remaining).1 ∧
    (read_loop fuel b remaining).1.size = b.size ∧
    (read_loop fuel b remaining).1.tail = b.tail ∧
    (read_loop fuel b remaining).1.data = b.data ∧
    (read_loop fuel b remaining).1.overwrite_on_full = b.overwrite_on_full ∧
    (read_loop fuel b remaining).1.write_count = b.write_count ∧
    (read_loop fuel b remaining).1.read_count = b.read_count ∧
    (read_loop fuel b remaining).1.overflow_count = b.overflow_count ∧
    (read_loop fuel b remaining).1.count = b.count - remaining ∧
    (read_loop fuel b remaining).2 = (buffer_contents b).take remaining ∧
    buffer_contents (read_loop fuel b remaining).1
      = (buffer_contents b).drop remaining := by
  induction fuel with
  | zero =>
    intro remaining b hfuel hwf hcc
    have hr0 : remaining = 0 := by omega
    subst hr0
    have hz : read_loop 0 b 0 = (b, []) := rfl
    rw [hz]
    exact ⟨hwf, rfl, rfl, rfl, rfl, rfl, rfl, rfl, by simp, by simp, by simp⟩
  | succ n ih =>
    intro remaining b hfuel hwf hcc
    by_cases hrem : remaining = 0
    · subst hrem
      have hz : read_loop (n + 1) b 0 = (b, []) := by
        simp [read_loop]
      rw [hz]
      exact ⟨hwf, rfl, rfl, rfl, rfl, rfl, rfl, rfl, by simp, by simp, by simp⟩
    · have hhead := hwf.head_lt
      have hcle := hwf.count_le
      have hcpos : 0 < min remaining (b.size - b.head) := by omega
      have hchunk : ¬ min remaining (b.size - b.head) = 0 := by omega
      have hclr : min remaining (b.size - b.head) ≤ remaining :=
        Nat.min_le_left _ _
      have hclh : min remaining (b.size - b.head) ≤ b.size - b.head :=
        Nat.min_le_right _ _
      rw [read_loop_step n hrem hchunk]
      generalize hcdef : min remaining (b.size - b.head) = c at *
      obtain ⟨hwfB, hcontB⟩ := buf_drop hwf (show c ≤ b.count by omega)
      have hbytes := read_chunk_eq_take hwf hclh (by omega)
      obtain ⟨ihwf, ihsize, ihtail, ihdata, ihow, ihwc, ihrc, ihoc, ihcnt,
        ihtake, ihdrop⟩ := ih (remaining - c) _ (by omega) hwfB (by
          show remaining - c ≤ b.count - c
          omega)
      refine ⟨ihwf, ihsize, ihtail, ihdata, ihow, ihwc, ihrc, ihoc, ?_, ?_, ?_⟩
      · refine ihcnt.trans ?_
        show b.count - c - (remaining - c) = b.count - remaining
        omega
      · show (List.range c).map (fun i => b.data (b.head + i))
            ++ (read_loop n _ (remaining - c)).2 = _
        rw [ihtake, hcontB, hbytes, ← List.take_add]
        congr 1
        omega
      · refine ihdrop.trans ?_
        rw [hcontB, List.drop_drop]
        congr 1
        omega

/-- `safe_buffer_write_nb` when the data fits in free space (either mode):
returns Ok, reports `len` written, and appends the bytes to the contents. -/
theorem write_nb_fits {b : safe_buffer_t} {src : List Nat} (hwf : BufferWF b)
    (hpos : 0 < src.length) (hfit : src.length ≤ b.size - b.count) :
    (safe_buffer_write_nb b src).1 = .ok ∧
    (safe_buffer_write_nb b src).2.2 = src.length ∧
    BufferWF (safe_buffer_write_nb b src).2.1 ∧
    buffer_contents (safe_buffer_write_nb b src).2.1
      = buffer_contents b ++ src ∧
    (safe_buffer_write_nb b src).2.1.count = b.count + src.length ∧
    (safe_buffer_write_nb b src).2.1.size = b.size ∧
    (safe_buffer_write_nb b src).2.1.overwrite_on_full
      = b.overwrite_on_full ∧
    (safe_buffer_write_nb b src).2.1.write_count
      = (b.write_count + 1) % U32 ∧
    (safe_buffer_write_nb b src).2.1.read_count = b.read_count ∧
    (safe_buffer_write_nb b src).2.1.overflow_count = b.overflow_count := by
  have hng : ¬ src.length = 0 := by omega
  have h1 : ¬ (b.size - b.count < src.length ∧ b.overwrite_on_full = false ∧
      b.size - b.count = 0) := by
    rintro ⟨h, _, _⟩
    omega
  have h2 : ¬ (b.size - b.count < src.length ∧
      b.overwrite_on_full = true) := by
    rintro ⟨h, _⟩
    omega
  have h3 : ¬ (b.size - b.count < src.length ∧
      b.overwrite_on_full = false) := by
    rintro ⟨h, _⟩
    omega
  have hstep : safe_buffer_write_nb b src
      = (.ok,
         { write_loop src.length b src with
           write_count := ((write_loop src.length b src).write_count + 1) % U32 },
         src.length) := by
    simp only [safe_buffer_write_nb, if_neg hng, if_neg h1, if_neg h2,
      if_neg h3, List.take_length]
  obtain ⟨wwf, wsize, wow, wwc, wrc, woc, wcnt, wcont⟩ :=
    write_loop_spec src.length src b (Nat.le_refl _) hwf (Or.inr hfit)
  have hcle := hwf.count_le
  rw [hstep]
  refine ⟨rfl, rfl, ?_, ?_, ?_, ?_, ?_, ?_, ?_, ?_⟩
  · exact ⟨wwf.size_pos, wwf.head_lt, wwf.tail_lt, wwf.count_le, wwf.tail_eq⟩
  · show buffer_contents (write_loop src.length b src) = _
    rw [wcont, show b.count + src.length - b.size = 0 by omega,
      List.drop_zero]
  · show (write_loop src.length b src).count = _
    rw [wcnt]
    omega
  · show (write_loop src.length b src).size = _
    exact wsize
  · show (write_loop src.length b src).overwrite_on_full = _
    exact wow
  · show ((write_loop src.length b src).write_count + 1) % U32 = _
    rw [wwc]
  · show (write_loop src.length b src).read_count = _
    exact wrc
  · show (write_loop src.length b src).overflow_count = _
    exact woc

/-- `safe_buffer_write_nb` without overwrite when `len` exceeds free space but
some bytes fit: a partial write of exactly the free space. -/
theorem write_nb_truncates {b : safe_buffer_t} {src : List Nat}
    (hwf : BufferWF b) (hflag : b.overwrite_on_full = false)
    (hover : b.size - b.count < src.length) (hroom : 0 < b.size - b.count) :
    (safe_buffer_write_nb b src).1 = .ok ∧
    (safe_buffer_write_nb b src).2.2 = b.size - b.count ∧
    BufferWF (safe_buffer_write_nb b src).2.1 ∧
    buffer_contents (safe_buffer_write_nb b src).2.1
      = buffer_contents b ++ src.take (b.size - b.count) ∧
    (safe_buffer_write_nb b src).2.1.count = b.size ∧
    (safe_buffer_write_nb b src).2.1.size = b.size ∧
    (safe_buffer_write_nb b src).2.1.overwrite_on_full
      = b.overwrite_on_full ∧
    (safe_buffer_write_nb b src).2.1.write_count
      = (b.write_count + 1) % U32 ∧
    (safe_buffer_write_nb b src).2.1.read_count = b.read_count ∧
    (safe_buffer_write_nb b src).2.1.overflow_count = b.overflow_count := by
  have hng : ¬ src.length = 0 := by omega
  have h1 : ¬ (b.size - b.count < src.length ∧ b.overwrite_on_full = false ∧
      b.size - b.count = 0) := by
    rintro ⟨_, _, h⟩
    omega
  have h2 : ¬ (b.size - b.count < src.length ∧
      b.overwrite_on_full = true) := by
    rintro ⟨_, h⟩
    rw [hflag] at h
    cases h
  have h3 : b.size - b.count < src.length ∧ b.overwrite_on_full = false :=
    ⟨hover, hflag⟩
  have hstep : safe_buffer_write_nb b src
      = (.ok,
         { write_loop (src.take (b.size - b.count)).length b
             (src.take (b.size - b.count)) with
           write_count :=
             ((write_loop (src.take (b.size - b.count)).length b
             (src.take (b.size - b.count))).write_count + 1)
               % U32 },
         b.size - b.count) := by
    simp only [safe_buffer_write_nb, if_neg hng, if_neg h1, if_neg h2,
      if_pos h3]
  have htlen : (src.take (b.size - b.count)).length = b.size - b.count := by
    rw [List.length_take]
    omega
  obtain ⟨wwf, wsize, wow, wwc, wrc, woc, wcnt, wcont⟩ :=
    write_loop_spec (src.take (b.size - b.count)).length _ b (Nat.le_refl _)
      hwf (Or.inr (by omega))
  have hcle := hwf.count_le
  rw [hstep]
  refine ⟨rfl, rfl, ?_, ?_, ?_, ?_, ?_, ?_, ?_, ?_⟩
  · exact ⟨wwf.size_pos, wwf.head_lt, wwf.tail_lt, wwf.count_le, wwf.tail_eq⟩
  · show buffer_contents (write_loop (src.take (b.size - b.count)).length b
      (src.take (b.size - b.count))) = _
    rw [wcont, htlen, show b.count + (b.size - b.count) - b.size = 0 by omega,
      List.drop_zero]
  · show (write_loop (src.take (b.size - b.count)).length b
      (src.take (b.size - b.count))).count = _
    rw [wcnt, htlen]
    omega
  · show (write_loop (src.take (b.size - b.count)).length b
      (src.take (b.size - b.count))).size = _
    exact wsize
  · show (write_loop (src.take (b.size - b.count)).length b
      (src.take (b.size - b.count))).overwrite_on_full = _
    exact wow
  · show ((write_loop (src.take (b.size - b.count)).length b
      (src.take (b.size - b.count))).write_count + 1) % U32
      = _
    rw [wwc]
  · show (write_loop (src.take (b.size - b.count)).length b
      (src.take (b.size - b.count))).read_count = _
    exact wrc
  · show (write_loop (src.take (b.size - b.count)).length b
      (src.take (b.size - b.count))).overflow_count = _
    exact woc

/-- `safe_buffer_write_nb` without overwrite on a completely full buffer:
fails with `Full`, zero bytes written, state untouched. -/
theorem write_nb_full {b : safe_buffer_t} {src : List Nat}
    (hflag : b.overwrite_on_full = false) (hpos : 0 < src.length)
    (hfull : b.size - b.count = 0) :
    safe_buffer_write_nb b src = (.full, b, 0) := by
  have hng : ¬ src.length = 0 := by omega
  have h1 : b.size - b.count < src.length ∧ b.overwrite_on_full = false ∧
      b.size - b.count = 0 := ⟨by omega, hflag, hfull⟩
  simp only [safe_buffer_write_nb, if_neg hng, if_pos h1]

/-- `safe_buffer_write_nb` in overwrite mode: never fails, accepts the whole
`len`, keeps the most recent `min size (count + len)` bytes, and bumps the
overflow counter exactly once — only when `len` exceeded the free space. -/
theorem write_nb_ow {b : safe_buffer_t} {src : List Nat} (hwf : BufferWF b)
    (hflag : b.overwrite_on_full = true) (hpos : 0 < src.length) :
    (safe_buffer_write_nb b src).1 = .ok ∧
    (safe_buffer_write_nb b src).2.2 = src.length ∧
    BufferWF (safe_buffer_write_nb b src).2.1 ∧
    buffer_contents (safe_buffer_write_nb b src).2.1
      = (buffer_contents b ++ src).drop (b.count + src.length - b.size) ∧
    (safe_buffer_write_nb b src).2.1.count
      = min b.size (b.count + src.length) ∧
    (safe_buffer_write_nb b src).2.1.size = b.size ∧
    (safe_buffer_write_nb b src).2.1.overwrite_on_full
      = b.overwrite_on_full ∧
    (safe_buffer_write_nb b src).2.1.write_count
      = (b.write_count + 1) % U32 ∧
    (safe_buffer_write_nb b src).2.1.read_count = b.read_count ∧
    (safe_buffer_write_nb b src).2.1.overflow_count
      = (if b.size - b.count < src.length then (b.overflow_count + 1) % U32
         else b.overflow_count) := by
  have hng : ¬ src.length = 0 := by omega
  have h1 : ¬ (b.size - b.count < src.length ∧ b.overwrite_on_full = false ∧
      b.size - b.count = 0) := by
    rintro ⟨_, h, _⟩
    rw [hflag] at h
    cases h
  have h3 : ¬ (b.size - b.count < src.length ∧
      b.overwrite_on_full = false) := by
    rintro ⟨_, h⟩
    rw [hflag] at h
    cases h
  by_cases hover : b.size - b.count < src.length
  · have h2 : b.size - b.count < src.length ∧ b.overwrite_on_full = true :=
      ⟨hover, hflag⟩
    have hstep : safe_buffer_write_nb b src
        = (.ok,
           { write_loop src.length
               { b with overflow_count := (b.overflow_count + 1) % U32 } src
             with
             write_count :=
               ((write_loop src.length
                   { b with overflow_count := (b.overflow_count + 1) % U32 }
                   src).write_count + 1) % U32 },
           src.length) := by
      simp only [safe_buffer_write_nb, if_neg hng, if_neg h1, if_pos h2,
        if_neg h3, List.take_length]
    have hwfo : BufferWF
        { b with overflow_count := (b.overflow_count + 1) % U32 } :=
      ⟨hwf.size_pos, hwf.head_lt, hwf.tail_lt, hwf.count_le, hwf.tail_eq⟩
    obtain ⟨wwf, wsize, wow, wwc, wrc, woc, wcnt, wcont⟩ :=
      write_loop_spec src.length src _ (Nat.le_refl _) hwfo
        (Or.inl (by exact hflag))
    rw [hstep]
    refine ⟨rfl, rfl, ?_, ?_, ?_, ?_, ?_, ?_, ?_, ?_⟩
    · exact ⟨wwf.size_pos, wwf.head_lt, wwf.tail_lt, wwf.count_le,
        wwf.tail_eq⟩
    · exact wcont
    · exact wcnt
    · exact wsize
    · exact wow
    · show (_ + 1) % U32 = _
      rw [wwc]
    · exact wrc
    · rw [if_pos hover]
      exact woc
  · have h2 : ¬ (b.size - b.count < src.length ∧
        b.overwrite_on_full = true) := by
      rintro ⟨h, _⟩
      omega
    have hstep : safe_buffer_write_nb b src
        = (.ok,
           { write_loop src.length b src with
             write_count :=
               ((write_loop src.length b src).write_count + 1) % U32 },
           src.length) := by
      simp only [safe_buffer_write_nb, if_neg hng, if_neg h1, if_neg h2,
        if_neg h3, List.take_length]
    obtain ⟨wwf, wsize, wow, wwc, wrc, woc, wcnt, wcont⟩ :=
      write_loop_spec src.length src b (Nat.le_refl _) hwf (Or.inl hflag)
    rw [hstep]
    refine ⟨rfl, rfl, ?_, ?_, ?_, ?_, ?_, ?_, ?_, ?_⟩
    · exact ⟨wwf.size_pos, wwf.head_lt, wwf.tail_lt, wwf.count_le,
        wwf.tail_eq⟩
    · exact wcont
    · exact wcnt
    · exact wsize
    · exact wow
    · show (_ + 1) % U32 = _
      rw [wwc]
    · exact wrc
    · rw [if_neg hover]
      exact woc

/-- `safe_buffer_read_nb` on a nonempty buffer: returns the oldest
`min n count` bytes in FIFO order and removes them. -/
theorem buffer_read_nb_ok {b : safe_buffer_t} {n : Nat} (hwf : BufferWF b)
    (hpos : 0 < n) (hne : b.count ≠ 0) :
    (safe_buffer_read_nb b n).1 = .ok ∧
    (safe_buffer_read_nb b n).2.2 = (buffer_contents b).take (min n b.count) ∧
    BufferWF (safe_buffer_read_nb b n).2.1 ∧
    buffer_contents (safe_buffer_read_nb b n).2.1
      = (buffer_contents b).drop (min n b.count) ∧
    (safe_buffer_read_nb b n).2.1.count = b.count - min n b.count ∧
    (safe_buffer_read_nb b n).2.1.size = b.size ∧
    (safe_buffer_read_nb b n).2.1.data = b.data ∧
    (safe_buffer_read_nb b n).2.1.overwrite_on_full = b.overwrite_on_full ∧
    (safe_buffer_read_nb b n).2.1.write_count = b.write_count ∧
    (safe_buffer_read_nb b n).2.1.read_count = (b.read_count + 1) % U32 ∧
    (safe_buffer_read_nb b n).2.1.overflow_count = b.overflow_count := by
  have hng : ¬ n = 0 := by omega
  have hmin : (if n < b.count then n else b.count) = min n b.count := by
    split <;> omega
  have hstep : safe_buffer_read_nb b n
      = (.ok,
         { (read_loop (min n b.count) b (min n b.count)).1 with
           read_count :=
             ((read_loop (min n b.count) b (min n b.count)).1.read_count + 1)
               % U32 },
         (read_loop (min n b.count) b (min n b.count)).2) := by
    simp only [safe_buffer_read_nb, if_neg hng, if_neg hne, hmin]
  obtain ⟨rwf, rsize, rtail, rdata, row, rwc, rrc, roc, rcnt, rtake, rdrop⟩ :=
    read_loop_spec (min n b.count) (min n b.count) b (Nat.le_refl _) hwf
      (Nat.min_le_right _ _)
  rw [hstep]
  refine ⟨rfl, rtake, ?_, rdrop, ?_, rsize, rdata, row, rwc, ?_, roc⟩
  · exact ⟨rwf.size_pos, rwf.head_lt, rwf.tail_lt, rwf.count_le, rwf.tail_eq⟩
  · exact rcnt
  · show (_ + 1) % U32 = _
    rw [rrc]

/-- Clearing a buffer preserves well-formedness. -/
theorem buffer_clear_wf {b : safe_buffer_t} (hwf : BufferWF b) :
    BufferWF (safe_buffer_clear b) :=
  ⟨hwf.size_pos, hwf.size_pos, hwf.size_pos, Nat.zero_le _,
    by simp [safe_buffer_clear]⟩

/-- Every branch of the non-blocking write preserves well-formedness. -/
theorem write_nb_wf {b : safe_buffer_t} (src : List Nat) (hwf : BufferWF b) :
    BufferWF (safe_buffer_write_nb b src).2.1 := by
  by_cases hng : src.length = 0
  · have : safe_buffer_write_nb b src = (.invalid, b, 0) := by
      simp only [safe_buffer_write_nb, if_pos hng]
    rw [this]
    exact hwf
  · by_cases hflag : b.overwrite_on_full = true
    · exact (write_nb_ow hwf hflag (by omega)).2.2.1
    · have hflag' : b.overwrite_on_full = false := by
        cases h : b.overwrite_on_full
        · rfl
        · exact absurd h hflag
      by_cases hover : b.size - b.count < src.length
      · by_cases hroom : 0 < b.size - b.count
        · exact (write_nb_truncates hwf hflag' hover hroom).2.2.1
        · rw [write_nb_full hflag' (by omega) (by omega)]
          exact hwf
      · exact (write_nb_fits hwf (by omega) (by omega)).2.2.1

/-- Every branch of the blocking write preserves well-formedness. -/
theorem write_b_wf {b : safe_buffer_t} (src : List Nat) (hwf : BufferWF b) :
    BufferWF (safe_buffer_write b src).2.1 := by
  unfold safe_buffer_write
  split
  · exact hwf
  · split
    · exact hwf
    · exact write_nb_wf src hwf

/-- Every branch of the non-blocking read preserves well-formedness. -/
theorem read_nb_wf {b : safe_buffer_t} (n : Nat) (hwf : BufferWF b) :
    BufferWF (safe_buffer_read_nb b n).2.1 := by
  by_cases hng : n = 0
  · have : safe_buffer_read_nb b n = (.invalid, b, []) := by
      simp only [safe_buffer_read_nb, if_pos hng]
    rw [this]
    exact hwf
  · by_cases hne : b.count = 0
    · have : safe_buffer_read_nb b n = (.empty, b, []) := by
        simp only [safe_buffer_read_nb, if_neg hng, if_pos hne]
      rw [this]
      exact hwf
    · exact (buffer_read_nb_ok hwf (by omega) hne).2.2.1

/-- Every branch of the blocking read preserves well-formedness. -/
theorem read_b_wf {b : safe_buffer_t} (n : Nat) (hwf : BufferWF b) :
    BufferWF (safe_buffer_read b n).2.1 := by
  unfold safe_buffer_read
  split
  · exact hwf
  · split
    · exact hwf
    · exact read_nb_wf n hwf

theorem safe_buffer_init_wf {st : Nat → Nat} {n : Nat} {ow : Bool}
    {b : safe_buffer_t} (h : safe_buffer_init st n ow = some b) :
    BufferWF b := by
  unfold safe_buffer_init at h
  split at h
  · exact absurd h (by simp)
  · rename_i hcond
    cases h
    exact ⟨Nat.pos_of_ne_zero hcond, Nat.pos_of_ne_zero hcond,
      Nat.pos_of_ne_zero hcond, Nat.zero_le _, by simp⟩

/-- Every reachable buffer state is well-formed. -/
theorem buffer_reach_wf {b : safe_buffer_t} (h : BufferReach b) :
    BufferWF b := by
  induction h with
  | init st n ow b h => exact safe_buffer_init_wf h
  | write_nb b src _ ih => exact write_nb_wf src ih
  | write_b b src _ ih => exact write_b_wf src ih
  | read_nb b n _ ih => exact read_nb_wf n ih
  | read_b b n _ ih => exact read_b_wf n ih
  | clear b _ ih => exact buffer_clear_wf ih

/-- C2: in every reachable state of a queue or buffer instance,
`0 ≤ count ≤ capacity` and `head, tail ∈ [0, capacity)`. -/
theorem C2_capacity_invariant :
    (∀ q : safe_queue_t, QueueReach q →
      q.count ≤ q.max_size ∧ q.head < q.max_size ∧ q.tail < q.max_size) ∧
    (∀ b : safe_buffer_t, BufferReach b →
      b.count ≤ b.size ∧ b.head < b.size ∧ b.tail < b.size) := by
  constructor
  · intro q h
    have hwf := queue_reach_wf h
    exact ⟨hwf.count_le, hwf.head_lt, hwf.tail_lt⟩
  · intro b h
    have hwf := buffer_reach_wf h
    exact ⟨hwf.count_le, hwf.head_lt, hwf.tail_lt⟩

/-- Witness for C2 at concrete reachable states: a fresh capacity-4 queue
after one enqueue, and the Scenario B buffer after one write. -/
theorem C2_capacity_invariant_witness :
    (qA1.2.count ≤ qA1.2.max_size ∧ qA1.2.head < qA1.2.max_size ∧
      qA1.2.tail < qA1.2.max_size) ∧
    (bB1.2.1.count ≤ bB1.2.1.size ∧ bB1.2.1.head < bB1.2.1.size ∧
      bB1.2.1.tail < bB1.2.1.size) :=
  ⟨C2_capacity_invariant.1 qA1.2
      (QueueReach.enq_nb qA0 1 1 0 (QueueReach.init 4 qA0 rfl)),
    C2_capacity_invariant.2 bB1.2.1
      (BufferReach.write_nb bB0 [65, 66, 67, 68, 69]
        (BufferReach.init (fun _ => 0) 8 false bB0 rfl))⟩

/-- C4: a non-blocking write without overwrite whose length exceeds the free
space stores exactly the bytes that fit, reports that count, and returns
`Full` (with no state change) only when nothing fits; Scenario B holds. -/
theorem C4_partial_write :
    (∀ (b : safe_buffer_t) (src : List Nat), BufferWF b →
      b.overwrite_on_full = false → b.size - b.count < src.length →
      (0 < b.size - b.count →
        (safe_buffer_write_nb b src).1 = .ok ∧
        (safe_buffer_write_nb b src).2.2 = b.size - b.count ∧
        buffer_contents (safe_buffer_write_nb b src).2.1
          = buffer_contents b ++ src.take (b.size - b.count) ∧
        safe_buffer_free_space (safe_buffer_write_nb b src).2.1 = 0) ∧
      (b.size - b.count = 0 → 0 < src.length →
        safe_buffer_write_nb b src = (.full, b, 0))) ∧
    bB1.1 = BufferRc.ok ∧ bB1.2.2 = 5 ∧
    bB2.1 = BufferRc.ok ∧ bB2.2.2 = 3 ∧
    safe_buffer_free_space bB2.2.1 = 0 ∧
    bB3.2.2 = [65, 66, 67, 68, 69, 70, 71, 72] := by
  refine ⟨?_, by decide, by decide, by decide, by decide, by decide,
    by decide⟩
  intro b src hwf hflag hover
  constructor
  · intro hroom
    obtain ⟨hrc, hwr, _, hcont, hcnt, hsize, _, _, _, _⟩ :=
      write_nb_truncates hwf hflag hover hroom
    refine ⟨hrc, hwr, hcont, ?_⟩
    unfold safe_buffer_free_space
    rw [hcnt, hsize]
    omega
  · intro hfull hpos
    exact write_nb_full hflag hpos hfull

/-- Witness for C4 at Scenario B's second write: free space 3, length 5. -/
theorem C4_partial_write_witness :
    (safe_buffer_write_nb bB1.2.1 [70, 71, 72, 73, 74]).1 = .ok ∧
    (safe_buffer_write_nb bB1.2.1 [70, 71, 72, 73, 74]).2.2
      = bB1.2.1.size - bB1.2.1.count ∧
    buffer_contents (safe_buffer_write_nb bB1.2.1 [70, 71, 72, 73, 74]).2.1
      = buffer_contents bB1.2.1
        ++ [70, 71, 72, 73, 74].take (bB1.2.1.size - bB1.2.1.count) ∧
    safe_buffer_free_space
      (safe_buffer_write_nb bB1.2.1 [70, 71, 72, 73, 74]).2.1 = 0 :=
  (C4_partial_write.1 bB1.2.1 [70, 71, 72, 73, 74]
    ⟨by decide, by decide, by decide, by decide, by decide⟩
    (by decide) (by decide)).1 (by decide)

/-- C5: without overwrite-on-full, bytes written while sufficient free space
exists come back from a subsequent read byte-for-byte in order: reading
everything returns the old contents followed by exactly `src`, and from an
empty buffer the read returns exactly `src`. -/
theorem C5_round_trip :
    (∀ (b : safe_buffer_t) (src : List Nat), BufferWF b →
      b.overwrite_on_full = false → 0 < src.length →
      b.count + src.length ≤ b.size →
      (safe_buffer_write_nb b src).1 = .ok ∧
      (safe_buffer_read_nb (safe_buffer_write_nb b src).2.1
          (b.count + src.length)).2.2 = buffer_contents b ++ src) ∧
    (∀ (b : safe_buffer_t) (src : List Nat), BufferWF b →
      b.overwrite_on_full = false → 0 < src.length → b.count = 0 →
      src.length ≤ b.size →
      (safe_buffer_read_nb (safe_buffer_write_nb b src).2.1 src.length).2.2
        = src) := by
  have main : ∀ (b : safe_buffer_t) (src : List Nat), BufferWF b →
      b.overwrite_on_full = false → 0 < src.length →
      b.count + src.length ≤ b.size →
      (safe_buffer_write_nb b src).1 = .ok ∧
      (safe_buffer_read_nb (safe_buffer_write_nb b src).2.1
          (b.count + src.length)).2.2 = buffer_contents b ++ src := by
    intro b src hwf hflag hpos hfit
    have hcle := hwf.count_le
    obtain ⟨hrc, hwr, hwf1, hcont1, hcnt1, hsize1, _, _, _, _⟩ :=
      write_nb_fits hwf hpos (by omega)
    refine ⟨hrc, ?_⟩
    have hne1 : (safe_buffer_write_nb b src).2.1.count ≠ 0 := by
      rw [hcnt1]
      omega
    obtain ⟨_, htake, _, _, _, _, _, _, _, _, _⟩ :=
      buffer_read_nb_ok hwf1 (show 0 < b.count + src.length by omega) hne1
    rw [htake, hcnt1, Nat.min_self, hcont1]
    have hlen : (buffer_contents b ++ src).length = b.count + src.length := by
      rw [List.length_append, buffer_contents_length]
    rw [← hlen, List.take_length]
  refine ⟨main, ?_⟩
  intro b src hwf hflag hpos hzero hfit
  have h := (main b src hwf hflag hpos (by omega)).2
  have hcb : buffer_contents b = [] := by
    unfold buffer_contents
    rw [hzero]
    rfl
  rw [hzero, Nat.zero_add, hcb, List.nil_append] at h
  exact h

/-- Witness for C5: write then read three bytes through a fresh buffer. -/
theorem C5_round_trip_witness :
    (safe_buffer_read_nb (safe_buffer_write_nb bB0 [9, 8, 7]).2.1
      (List.length [9, 8, 7])).2.2 = [9, 8, 7] :=
  C5_round_trip.2 bB0 [9, 8, 7]
    ⟨by decide, by decide, by decide, by decide, by decide⟩
    (by decide) (by decide) (by decide) (by decide)

theorem lastN_append (n : Nat) (H s : List Nat) :
    (lastN n H ++ s).drop ((lastN n H).length + s.length - n)
      = lastN n (H ++ s) := by
  unfold lastN
  rw [← List.drop_append_of_le_length (Nat.sub_le H.length n),
    List.drop_drop]
  congr 1
  simp only [List.length_drop, List.length_append]
  omega

theorem safe_buffer_init_fields {st : Nat → Nat} {n : Nat} {ow : Bool}
    {b : safe_buffer_t} (h : safe_buffer_init st n ow = some b) :
    b.count = 0 ∧ b.size = n ∧ b.overwrite_on_full = ow ∧
    buffer_contents b = [] ∧ b.overflow_count = 0 := by
  unfold safe_buffer_init at h
  split at h
  · exact absurd h (by simp)
  · cases h
    exact ⟨rfl, rfl, rfl, rfl, rfl⟩

/-- Folding any list of overwrite-mode writes keeps, as contents, the most
recent `size` bytes of the concatenated history. -/
theorem write_all_lastN : ∀ (css : List (List Nat)) (b : safe_buffer_t)
    (H : List Nat), BufferWF b → b.overwrite_on_full = true →
    buffer_contents b = lastN b.size H →
    BufferWF (write_all b css) ∧
    (write_all b css).size = b.size ∧
    (write_all b css).overwrite_on_full = true ∧
    buffer_contents (write_all b css) = lastN b.size (H ++ css.flatten) := by
  intro css
  induction css with
  | nil =>
    intro b H hwf hflag hH
    exact ⟨hwf, rfl, hflag, by simpa using hH⟩
  | cons cs css ih =>
    intro b H hwf hflag hH
    have hunf : write_all b (cs :: css)
        = write_all (safe_buffer_write_nb b cs).2.1 css := rfl
    rw [hunf]
    by_cases hcs : cs.length = 0
    · have hnil : cs = [] := List.eq_nil_of_length_eq_zero hcs
      have hid : (safe_buffer_write_nb b cs).2.1 = b := by
        subst hnil
        rfl
      rw [hid]
      obtain ⟨h1, h2, h3, h4⟩ := ih b H hwf hflag hH
      refine ⟨h1, h2, h3, ?_⟩
      rw [h4]
      subst hnil
      simp
    · obtain ⟨_, _, hwf1, hcont1, hcnt1, hsize1, hflag1, _, _, _⟩ :=
        @write_nb_ow b cs hwf hflag (by omega)
      have hbc : b.count = (lastN b.size H).length := by
        rw [← hH, buffer_contents_length]
      have hcont1L : buffer_contents (safe_buffer_write_nb b cs).2.1
          = lastN (safe_buffer_write_nb b cs).2.1.size (H ++ cs) := by
        rw [hsize1, hcont1, hH, hbc, lastN_append]
      obtain ⟨h1, h2, h3, h4⟩ := ih (safe_buffer_write_nb b cs).2.1 (H ++ cs)
        hwf1 (by rw [hflag1]; exact hflag) hcont1L
      refine ⟨h1, by rw [h2, hsize1], h3, ?_⟩
      rw [h4, hsize1, List.append_assoc, List.flatten_cons]

/-- C6: in overwrite mode a write longer than the free space never blocks and
never fails, leaves the most recent `capacity` bytes of everything written,
and bumps the overflow counter exactly once per call; Scenario C holds. -/
theorem C6_overwrite :
    (∀ (b : safe_buffer_t) (src : List Nat), BufferWF b →
      b.overwrite_on_full = true → b.size - b.count < src.length →
      0 < src.length →
      safe_buffer_write b src = safe_buffer_write_nb b src ∧
      (safe_buffer_write_nb b src).1 = .ok ∧
      (safe_buffer_write_nb b src).2.2 = src.length ∧
      (safe_buffer_write_nb b src).2.1.overflow_count
        = (b.overflow_count + 1) % U32 ∧
      buffer_contents (safe_buffer_write_nb b src).2.1
        = lastN b.size (buffer_contents b ++ src)) ∧
    (∀ (st : Nat → Nat) (n : Nat) (b0 : safe_buffer_t)
      (css : List (List Nat)),
      safe_buffer_init st n true = some b0 →
      buffer_contents (write_all b0 css) = lastN n css.flatten) ∧
    bC1.1 = BufferRc.ok ∧
    bC2.1 = BufferRc.ok ∧
    bC2.2.1.overflow_count = 1 ∧
    bC3.2.2 = [67, 68, 69, 70] := by
  refine ⟨?_, ?_, by decide, by decide, by decide, by decide⟩
  · intro b src hwf hflag hover hpos
    obtain ⟨hrc, hwr, _, hcont, hcnt, _, _, _, _, hoc⟩ :=
      write_nb_ow hwf hflag hpos
    refine ⟨?_, hrc, hwr, ?_, ?_⟩
    · simp only [safe_buffer_write, if_neg (show ¬ src.length = 0 by omega)]
      rw [if_neg]
      rintro ⟨h, _⟩
      rw [hflag] at h
      cases h
    · rw [hoc, if_pos hover]
    · rw [hcont]
      unfold lastN
      congr 1
      rw [List.length_append, buffer_contents_length]
  · intro st n b0 css hinit
    obtain ⟨hcnt0, hsize0, hflag0, hcont0, _⟩ := safe_buffer_init_fields hinit
    have hwf0 := safe_buffer_init_wf hinit
    obtain ⟨_, _, _, h4⟩ := write_all_lastN css b0 [] hwf0 hflag0
      (by rw [hcont0]; simp [lastN])
    rw [h4, hsize0, List.nil_append]

/-- Witness for C6 at Scenario C's second write: free space 0, length 2. -/
theorem C6_overwrite_witness :
    safe_buffer_write bC1.2.1 [69, 70]
      = safe_buffer_write_nb bC1.2.1 [69, 70] ∧
    (safe_buffer_write_nb bC1.2.1 [69, 70]).1 = .ok ∧
    (safe_buffer_write_nb bC1.2.1 [69, 70]).2.2 = List.length [69, 70] ∧
    (safe_buffer_write_nb bC1.2.1 [69, 70]).2.1.overflow_count
      = (bC1.2.1.overflow_count + 1) % U32 ∧
    buffer_contents (safe_buffer_write_nb bC1.2.1 [69, 70]).2.1
      = lastN bC1.2.1.size (buffer_contents bC1.2.1 ++ [69, 70]) :=
  C6_overwrite.1 bC1.2.1 [69, 70]
    ⟨by decide, by decide, by decide, by decide, by decide⟩
    (by decide) (by decide) (by decide)

theorem write_nb_ne_timeout (b : safe_buffer_t) (src : List Nat) :
    (safe_buffer_write_nb b src).1 ≠ .timeout := by
  by_cases h1 : src.length = 0
  · simp [safe_buffer_write_nb, h1]
  · by_cases h2 : b.size - b.count < src.length ∧
      b.overwrite_on_full = false ∧ b.size - b.count = 0
    · simp only [safe_buffer_write_nb, if_neg h1, if_pos h2]
      simp
    · simp only [safe_buffer_write_nb, if_neg h1, if_neg h2]
      simp

theorem read_nb_ne_timeout (b : safe_buffer_t) (n : Nat) :
    (safe_buffer_read_nb b n).1 ≠ .timeout := by
  by_cases h1 : n = 0
  · simp [safe_buffer_read_nb, h1]
  · by_cases h2 : b.count = 0
    · simp [safe_buffer_read_nb, h1, h2]
    · simp only [safe_buffer_read_nb, if_neg h1, if_neg h2]
      simp

/-- C7: every blocking queue or buffer operation that returns `Timeout`
leaves head, tail, count and contents (the whole observable state) exactly as
before the call, with nothing partially transferred; in particular a blocking
enqueue on a full queue times out with `count` unchanged. -/
theorem C7_timeout_frame :
    (∀ (q : safe_queue_t) (d s now : Nat),
      (safe_queue_enqueue q d s now).1 = .timeout →
      (safe_queue_enqueue q d s now).2 = q) ∧
    (∀ q : safe_queue_t,
      (safe_queue_dequeue q).1 = .timeout →
      (safe_queue_dequeue q).2.1 = q ∧ (safe_queue_dequeue q).2.2 = none) ∧
    (∀ (b : safe_buffer_t) (src : List Nat),
      (safe_buffer_write b src).1 = .timeout →
      (safe_buffer_write b src).2.1 = b ∧
      (safe_buffer_write b src).2.2 = 0) ∧
    (∀ (b : safe_buffer_t) (n : Nat),
      (safe_buffer_read b n).1 = .timeout →
      (safe_buffer_read b n).2.1 = b ∧ (safe_buffer_read b n).2.2 = []) ∧
    (∀ (q : safe_queue_t) (d s now : Nat), d ≠ 0 → s ≠ 0 →
      q.count ≥ q.max_size →
      (safe_queue_enqueue q d s now).1 = .timeout ∧
      (safe_queue_enqueue q d s now).2.count = q.count) := by
  refine ⟨?_, ?_, ?_, ?_, ?_⟩
  · intro q d s now h
    by_cases h1 : d = 0 ∨ s = 0
    · simp only [safe_queue_enqueue, if_pos h1]
    · by_cases h2 : q.count ≥ q.max_size
      · simp only [safe_queue_enqueue, if_neg h1, if_pos h2]
      · have heq : (safe_queue_enqueue q d s now).1 = .ok := by
          simp only [safe_queue_enqueue, if_neg h1, if_neg h2]
        rw [heq] at h
        simp at h
  · intro q h
    by_cases h1 : q.count = 0
    · constructor <;> simp only [safe_queue_dequeue, if_pos h1]
    · have heq : (safe_queue_dequeue q).1 = .ok := by
        simp only [safe_queue_dequeue, if_neg h1]
      rw [heq] at h
      simp at h
  · intro b src h
    by_cases h1 : src.length = 0
    · constructor <;> simp only [safe_buffer_write, if_pos h1]
    · by_cases h2 : b.overwrite_on_full = false ∧
        b.size - b.count < src.length
      · constructor <;>
          simp only [safe_buffer_write, if_neg h1, if_pos h2]
      · have heq : (safe_buffer_write b src).1
            = (safe_buffer_write_nb b src).1 := by
          simp only [safe_buffer_write, if_neg h1, if_neg h2]
        rw [heq] at h
        exact absurd h (write_nb_ne_timeout b src)
  · intro b n h
    by_cases h1 : n = 0
    · constructor <;> simp only [safe_buffer_read, if_pos h1]
    · by_cases h2 : b.count = 0
      · constructor <;> simp only [safe_buffer_read, if_neg h1, if_pos h2]
      · have heq : (safe_buffer_read b n).1 = (safe_buffer_read_nb b n).1 := by
          simp only [safe_buffer_read, if_neg h1, if_neg h2]
        rw [heq] at h
        exact absurd h (read_nb_ne_timeout b n)
  · intro q d s now hd hs hfull
    have h1 : ¬ (d = 0 ∨ s = 0) := by tauto
    constructor <;> simp only [safe_queue_enqueue, if_neg h1, if_pos hfull]

/-- Witness for C7: a blocking enqueue on the full Scenario A queue times out
with `count` unchanged. -/
theorem C7_timeout_frame_witness :
    (safe_queue_enqueue qA_full 9 1 0).1 = .timeout ∧
    (safe_queue_enqueue qA_full 9 1 0).2.count = qA_full.count :=
  (C7_timeout_frame.2.2.2.2 qA_full 9 1 0 (by decide) (by decide) (by decide))

/-- C1 (counterexample / bug evidence): creating the `DATA_PROCESSING`
thread succeeds, sets state `Starting` and stamps the heartbeat, but the OS
thread is started with `THREAD_STACK_COMMUNICATION` (1024) and
`THREAD_PRIO_COMMUNICATION` (3) instead of the identifier's own
`THREAD_STACK_DATA_PROC` (1536) and `THREAD_PRIO_DATA_PROC` (4): the
configuration arrays in `thread_manager.c` list communication before
data_proc while the `thread_id_t` enum orders them the other way around. -/
theorem C1_create_thread_config_bug :
    (thread_manager_create_thread thread_manager_init
      THREAD_ID_DATA_PROCESSING true 7).1 = 0 ∧
    ((thread_manager_create_thread thread_manager_init
        THREAD_ID_DATA_PROCESSING true 7).2.1.infos
        THREAD_ID_DATA_PROCESSING).state = .starting ∧
    ((thread_manager_create_thread thread_manager_init
        THREAD_ID_DATA_PROCESSING true 7).2.1.infos
        THREAD_ID_DATA_PROCESSING).last_heartbeat = 7 ∧
    (thread_manager_create_thread thread_manager_init
        THREAD_ID_DATA_PROCESSING true 7).2.2
      = some { stack_size := THREAD_STACK_COMMUNICATION
               priority := THREAD_PRIO_COMMUNICATION } ∧
    (thread_manager_create_thread thread_manager_init
        THREAD_ID_DATA_PROCESSING true 7).2.2
      ≠ some { stack_size := claimed_stack_size THREAD_ID_DATA_PROCESSING
               priority := claimed_priority THREAD_ID_DATA_PROCESSING } ∧
    claimed_stack_size THREAD_ID_DATA_PROCESSING = THREAD_STACK_DATA_PROC ∧
    claimed_priority THREAD_ID_DATA_PROCESSING = THREAD_PRIO_DATA_PROC ∧
    (thread_manager_create_thread thread_manager_init
        THREAD_ID_COMMUNICATION true 7).2.2
      = some { stack_size := THREAD_STACK_DATA_PROC
               priority := THREAD_PRIO_DATA_PROC } ∧
    (thread_manager_create_thread thread_manager_init
        THREAD_ID_COMMUNICATION true 7).2.2
      ≠ some { stack_size := claimed_stack_size THREAD_ID_COMMUNICATION
               priority := claimed_priority THREAD_ID_COMMUNICATION } := by
  refine ⟨by decide, by decide, by decide, by decide, by decide, by decide,
    by decide, by decide, by decide⟩

/-- C9: `check_watchdogs` is level-triggered over `Running` records: on each
call it returns the number of tripped `Running` records, increments exactly
their error counts, changes no state, never reports a non-`Running` record,
and the trip condition is unchanged by the call itself, so a silent thread is
reported again on the next call; Scenario E holds. -/
theorem C9_watchdog_level_triggered :
    (∀ (m : thread_manager_state) (now : Int) (i : Nat),
      m.initialized = true → i < THREAD_ID_MAX →
      (thread_manager_check_watchdogs m now).1
        = ((List.range THREAD_ID_MAX).filter
            (fun j => watchdog_tripped (m.infos j) now)).length ∧
      (watchdog_tripped (m.infos i) now = true →
        ((thread_manager_check_watchdogs m now).2.infos i).error_count
          = ((m.infos i).error_count + 1) % U32) ∧
      (watchdog_tripped (m.infos i) now = false →
        (thread_manager_check_watchdogs m now).2.infos i = m.infos i) ∧
      ((thread_manager_check_watchdogs m now).2.infos i).state
        = (m.infos i).state ∧
      ((m.infos i).state ≠ .running →
        watchdog_tripped (m.infos i) now = false) ∧
      watchdog_tripped ((thread_manager_check_watchdogs m now).2.infos i) now
        = watchdog_tripped (m.infos i) now ∧
      (thread_manager_check_watchdogs m now).2.initialized = true) ∧
    tmE3.1 = 1 ∧
    (tmE3.2.infos THREAD_ID_SUPERVISOR).error_count = 1 ∧
    (tmE3.2.infos THREAD_ID_SUPERVISOR).state = .running ∧
    tmE4.1 = 1 ∧
    (tmE4.2.infos THREAD_ID_SUPERVISOR).error_count = 2 := by
  refine ⟨?_, by decide, by decide, by decide, by decide, by decide⟩
  intro m now i hinit hi
  have hstep : thread_manager_check_watchdogs m now
      = (((List.range THREAD_ID_MAX).filter
            (fun j => watchdog_tripped (m.infos j) now)).length,
        { m with
          infos := fun j =>
            if j < THREAD_ID_MAX ∧ watchdog_tripped (m.infos j) now = true
            then
              { m.infos j with
                error_count := ((m.infos j).error_count + 1) % U32 }
            else m.infos j }) := by
    simp only [thread_manager_check_watchdogs, hinit]
    rfl
  rw [hstep]
  refine ⟨rfl, ?_, ?_, ?_, ?_, ?_, hinit⟩
  · intro htr
    show ((if i < THREAD_ID_MAX ∧ watchdog_tripped (m.infos i) now = true
        then _ else m.infos i) : thread_info_t).error_count = _
    rw [if_pos ⟨hi, htr⟩]
  · intro htr
    show (if i < THREAD_ID_MAX ∧ watchdog_tripped (m.infos i) now = true
        then _ else m.infos i) = m.infos i
    rw [if_neg]
    rintro ⟨_, h⟩
    rw [htr] at h
    cases h
  · show ((if i < THREAD_ID_MAX ∧ watchdog_tripped (m.infos i) now = true
        then { m.infos i with
               error_count := ((m.infos i).error_count + 1) % U32 }
        else m.infos i) : thread_info_t).state = _
    split
    · rfl
    · rfl
  · intro hstate
    unfold watchdog_tripped
    rw [show ((m.infos i).state == thread_state_t.running) = false from
      beq_eq_false_iff_ne.mpr hstate]
    rfl
  · show watchdog_tripped
        (if i < THREAD_ID_MAX ∧ watchdog_tripped (m.infos i) now = true
        then { m.infos i with
               error_count := ((m.infos i).error_count + 1) % U32 }
        else m.infos i) now = _
    split
    · rfl
    · rfl

/-- Witness for C9: the Scenario E state after the first heartbeat, checked
at 30001 ms with thread 0 tripped. -/
theorem C9_watchdog_level_triggered_witness :
    (thread_manager_check_watchdogs tmE2 30001).1
      = ((List.range THREAD_ID_MAX).filter
          (fun j => watchdog_tripped (tmE2.infos j) 30001)).length ∧
    (watchdog_tripped (tmE2.infos 0) 30001 = true →
      ((thread_manager_check_watchdogs tmE2 30001).2.infos 0).error_count
        = ((tmE2.infos 0).error_count + 1) % U32) ∧
    (watchdog_tripped (tmE2.infos 0) 30001 = false →
      (thread_manager_check_watchdogs tmE2 30001).2.infos 0
        = tmE2.infos 0) ∧
    ((thread_manager_check_watchdogs tmE2 30001).2.infos 0).state
      = (tmE2.infos 0).state ∧
    ((tmE2.infos 0).state ≠ .running →
      watchdog_tripped (tmE2.infos 0) 30001 = false) ∧
    watchdog_tripped
        ((thread_manager_check_watchdogs tmE2 30001).2.infos 0) 30001
      = watchdog_tripped (tmE2.infos 0) 30001 ∧
    (thread_manager_check_watchdogs tmE2 30001).2.initialized = true :=
  C9_watchdog_level_triggered.1 tmE2 30001 0 (by decide) (by decide)

/-- C10: for a valid identifier, `heartbeat` always stamps `last_heartbeat`
and bumps `run_count`; it changes `state` only when the record was
`Starting` (to `Running`), every other state — and every other field, and
every other record — is left untouched. -/
theorem C10_heartbeat_frame :
    ∀ (m : thread_manager_state) (id : Nat) (now : Int),
      m.initialized = true → id < THREAD_ID_MAX →
      ((thread_manager_heartbeat m id now).infos id).last_heartbeat = now ∧
      ((thread_manager_heartbeat m id now).infos id).run_count
        = ((m.infos id).run_count + 1) % U32 ∧
      ((m.infos id).state ≠ .starting →
        ((thread_manager_heartbeat m id now).infos id).state
          = (m.infos id).state) ∧
      ((m.infos id).state = .starting →
        ((thread_manager_heartbeat m id now).infos id).state = .running) ∧
      ((thread_manager_heartbeat m id now).infos id).id = (m.infos id).id ∧
      ((thread_manager_heartbeat m id now).infos id).name
        = (m.infos id).name ∧
      ((thread_manager_heartbeat m id now).infos id).error_count
        = (m.infos id).error_count ∧
      ((thread_manager_heartbeat m id now).infos id).watchdog_timeout_ms
        = (m.infos id).watchdog_timeout_ms ∧
      (∀ j, j ≠ id → (thread_manager_heartbeat m id now).infos j
        = m.infos j) := by
  intro m id now hinit hid
  have hguard : ¬ (m.initialized = false ∨ id ≥ THREAD_ID_MAX) := by
    rintro (h | h)
    · rw [hinit] at h
      cases h
    · omega
  have hstep : thread_manager_heartbeat m id now
      = { m with
          infos := fun j =>
            if j = id then
              let info := m.infos j
              let info :=
                { info with
                  last_heartbeat := now
                  run_count := (info.run_count + 1) % U32 }
              if info.state = .starting then { info with state := .running }
              else info
            else m.infos j } := by
    simp only [thread_manager_heartbeat, if_neg hguard]
  rw [hstep]
  by_cases hstate : (m.infos id).state = .starting
  · refine ⟨?_, ?_, ?_, ?_, ?_, ?_, ?_, ?_, ?_⟩
    · simp [hstate]
    · simp [hstate]
    · intro h
      exact absurd hstate h
    · intro _
      simp [hstate]
    · simp [hstate]
    · simp [hstate]
    · simp [hstate]
    · simp [hstate]
    · intro j hj
      simp only [if_neg hj]
  · refine ⟨?_, ?_, ?_, ?_, ?_, ?_, ?_, ?_, ?_⟩
    · simp [hstate]
    · simp [hstate]
    · intro _
      simp [hstate]
    · intro h
      exact absurd h hstate
    · simp [hstate]
    · simp [hstate]
    · simp [hstate]
    · simp [hstate]
    · intro j hj
      simp only [if_neg hj]

/-- Witness for C10: a heartbeat on the freshly created (Starting) supervisor
record, and on a Running record via Scenario E's state. -/
theorem C10_heartbeat_frame_witness :
    ((thread_manager_heartbeat tmE2 0 5).infos 0).last_heartbeat = 5 ∧
    ((thread_manager_heartbeat tmE2 0 5).infos 0).run_count
      = ((tmE2.infos 0).run_count + 1) % U32 ∧
    ((tmE2.infos 0).state ≠ .starting →
      ((thread_manager_heartbeat tmE2 0 5).infos 0).state
        = (tmE2.infos 0).state) :=
  have h := C10_heartbeat_frame tmE2 0 5 (by decide) (by decide)
  ⟨h.1, h.2.1, h.2.2.1⟩
